import Mathlib

/-!
# PostAddress: a shallow embedding of `postadd.c`

The C file implements a PostgreSQL base type whose stored form is one text
`[unit/]street, suburb, STATE POSTCODE`.  This development embeds the input
function `postadd_in`, the output function `postadd_out`, the views
`show_postcode`, `show_unit` and `show`, the comparison
`postaddress_abs_cmp_internal` with the operators built on it, and
`postaddress_hash`, and proves properties of them.

Conventions of the embedding.

* A C string is the list of its characters before the terminating NUL
  (`CStr`).  All character tests are those of the C/POSIX locale, where the
  bracket ranges `[a-z]`, `[A-Z]`, `[0-9]` are ranges of character codes and
  `tolower` only moves `A`..`Z`.
* `strchr` returns the offset of the first occurrence; the in-place split
  `*p = 0; field = address; address = ++p` becomes `take`/`drop` at that offset.
* `ereport(ERROR, ...)` does not return: the input function is a function into
  `Except`, the error carrying the message text.
* Dereferencing the NULL result of a failed `strchr`, stepping a pointer past
  the terminator or in front of the buffer, and a `strcat` whose operands
  overlap are undefined behaviour: the comparison and the views that can meet
  it are functions into `Option`, `none` standing for it.
-/

namespace PostAddress

/-- C string: the characters before the terminating NUL. -/
abbrev CStr := List Char

/-! ## libc: `strchr`, `tolower`, `strcasecmp`, POSIX extended regular expressions -/

/-- Offset of the first occurrence of `c` in `s`, as `strchr(s, c) - s`;
`none` is the NULL result. -/
def strchr : CStr → Char → Option Nat
  | [], _ => none
  | x :: xs, c => if x = c then some 0 else (strchr xs c).map (· + 1)

/-- The `tolower` of the C locale. -/
def tolower (c : Char) : Char :=
  if 65 ≤ c.toNat ∧ c.toNat ≤ 90 then Char.ofNat (c.toNat + 32) else c

/-- Byte-wise comparison of the lower-cased strings, as `strcasecmp`: the
difference of the first pair of lower-cased characters that differ, the
terminator counting as 0. -/
def strcasecmp : CStr → CStr → Int
  | [], [] => 0
  | [], y :: _ => 0 - ((tolower y).toNat : Int)
  | x :: _, [] => ((tolower x).toNat : Int)
  | x :: xs, y :: ys =>
    if tolower x = tolower y then strcasecmp xs ys
    else ((tolower x).toNat : Int) - ((tolower y).toNat : Int)

/-- Abstract syntax of the POSIX extended regular expressions the program
uses; `nothing` and `alt` only arise as derivatives. -/
inductive Regex where
  | nothing : Regex
  | eps : Regex
  | bracket : List (Char × Char) → Regex
  | seq : Regex → Regex → Regex
  | alt : Regex → Regex → Regex
  | star : Regex → Regex

namespace Regex

/-- Membership in a bracket expression given as a list of ranges `lo-hi`. -/
def inBracket (rs : List (Char × Char)) (c : Char) : Bool :=
  rs.any (fun r => decide (r.1.toNat ≤ c.toNat ∧ c.toNat ≤ r.2.toNat))

/-- The regex `r+`. -/
def plus (r : Regex) : Regex := seq r (star r)

/-- The regex `r{n}`. -/
def times (r : Regex) : Nat → Regex
  | 0 => eps
  | n + 1 => seq r (times r n)

/-- Whether `r` matches the empty string. -/
def nullable : Regex → Bool
  | nothing => false
  | eps => true
  | bracket _ => false
  | seq r q => nullable r && nullable q
  | alt r q => nullable r || nullable q
  | star _ => true

/-- Brzozowski derivative of `r` by the character `c`. -/
def deriv : Regex → Char → Regex
  | nothing, _ => nothing
  | eps, _ => nothing
  | bracket rs, c => if inBracket rs c then eps else nothing
  | seq r q, c =>
    if nullable r then alt (seq (deriv r c) q) (deriv q c) else seq (deriv r c) q
  | alt r q, c => alt (deriv r c) (deriv q c)
  | star r, c => seq (deriv r c) (star r)

/-- Whether `r` matches the whole of `s`. -/
def rmatch : Regex → CStr → Bool
  | r, [] => nullable r
  | r, c :: s => rmatch (deriv r c) s

end Regex

open Regex in
/-- The bracket expression `[a-zA-Z]`. -/
def cAlpha : Regex := bracket [('a', 'z'), ('A', 'Z')]

open Regex in
/-- The bracket expression `[A-Z]`. -/
def cUpper : Regex := bracket [('A', 'Z')]

open Regex in
/-- The bracket expression `[0-9]`. -/
def cDigit : Regex := bracket [('0', '9')]

open Regex in
/-- The bracket expression `[ ]`. -/
def cSpace : Regex := bracket [(' ', ' ')]

open Regex in
/-- The pattern `^[a-zA-Z]{1}[0-9]+$`. -/
def unitPattern : Regex := seq (times cAlpha 1) (plus cDigit)

open Regex in
/-- The pattern `^[0-9]+[ ]{1}[a-zA-Z]+([ ]{1}[a-zA-Z]+)*$`. -/
def streetPattern : Regex :=
  seq (plus cDigit) (seq (times cSpace 1)
    (seq (plus cAlpha) (star (seq (times cSpace 1) (plus cAlpha)))))

open Regex in
/-- The pattern `^[ ]{1}[a-zA-Z]+([ ]{1}[a-zA-Z]+)*$`. -/
def suburbPattern : Regex :=
  seq (times cSpace 1) (seq (plus cAlpha) (star (seq (times cSpace 1) (plus cAlpha))))

open Regex in
/-- The pattern `^[ ]{1}[A-Z]{2}[ ]{1}[0-9]{4}$`. -/
def statePostcodePattern : Regex :=
  seq (times cSpace 1) (seq (times cUpper 2) (seq (times cSpace 1) (times cDigit 4)))

/-- The function `regexMatch`: 1 when `str` matches, 0 on `REG_NOMATCH`.  The
patterns are given compiled, so the -1 of a failed `regcomp` does not arise;
each pattern is anchored by `^` and `$` and compiled without `REG_NEWLINE`, so
matching is matching of the whole string. -/
def regexMatch (str : CStr) (pattern : Regex) : Int :=
  if Regex.rmatch pattern str then 1 else 0

/-! ## The stored value and the input/output functions -/

/-- The struct `postaddress`: the varlena length word and the text. -/
structure postaddress where
  length : Nat
  data : CStr
  deriving DecidableEq, Repr

/-- Size of the varlena header. -/
def VARHDRSZ : Nat := 4

/-- Message of the error `invalid_postadd_msg` reports. -/
def invalid_postadd_msg (str : CStr) : CStr :=
  "invalid input syntax for type PostAddress: ".toList ++ Char.ofNat 34 :: str ++ [Char.ofNat 34]

/-- The local variables `unit`, `street`, `suburb`, `state_postcode` of
`postadd_in` once all four checks have passed. -/
structure Fields where
  unit : Option CStr
  street : CStr
  suburb : CStr
  state_postcode : CStr
  deriving DecidableEq, Repr

/-- Lines 70-112 of `postadd_in`: split at the first `/` (if any), then at the
first `,` twice, checking each piece against its pattern; the first failure
reports the error. -/
def postadd_in_fields (str : CStr) : Except CStr Fields :=
  let unitStep : Except CStr (Option CStr × CStr) :=
    match strchr str '/' with
    | some i =>
      if regexMatch (str.take i) unitPattern = 0 then .error (invalid_postadd_msg str)
      else .ok (some (str.take i), str.drop (i + 1))
    | none => .ok (none, str)
  match unitStep with
  | .error e => .error e
  | .ok (unit, address) =>
    match strchr address ',' with
    | none => .error (invalid_postadd_msg str)
    | some j =>
      let street := address.take j
      let address := address.drop (j + 1)
      if regexMatch street streetPattern = 0 then .error (invalid_postadd_msg str)
      else
        match strchr address ',' with
        | none => .error (invalid_postadd_msg str)
        | some k =>
          let suburb := address.take k
          let address := address.drop (k + 1)
          if regexMatch suburb suburbPattern = 0 then .error (invalid_postadd_msg str)
          else if regexMatch address statePostcodePattern = 0 then
            .error (invalid_postadd_msg str)
          else .ok ⟨unit, street, suburb, address⟩

/-- The input function `postadd_in`: after the checks the stored value is a
copy of the argument itself. -/
def postadd_in (str : CStr) : Except CStr postaddress :=
  match postadd_in_fields str with
  | .error e => .error e
  | .ok _ => .ok ⟨str.length + 1 + VARHDRSZ, str⟩

/-- The output function `postadd_out`: a copy of the stored text. -/
def postadd_out (address : postaddress) : CStr := address.data

/-! ## The comparison -/

/-- Lines 214-219 (and 220-225): the unit, when the text has a `/`, and the
text after it. -/
def cmpUnitSplit (address : CStr) : Option CStr × CStr :=
  match strchr address '/' with
  | some i => (some (address.take i), address.drop (i + 1))
  | none => (none, address)

/-- The step `p = strchr(address, c); *p = 0; field = address; p += 2;
address = p`: the field before the first `c` and the text two characters
after its start.  `none` when `c` is not found (NULL is written through) or
when `p + 2` is beyond the terminator. -/
def splitSkip2 (address : CStr) (c : Char) : Option (CStr × CStr) :=
  match strchr address c with
  | none => none
  | some i =>
    if i + 2 ≤ address.length then some (address.take i, address.drop (i + 2)) else none

/-- The step `p = strchr(address, ' '); *p = 0; state = address`. -/
def splitState (address : CStr) : Option CStr :=
  match strchr address ' ' with
  | none => none
  | some i => some (address.take i)

/-- Lines 259-302: the cascade of `strcasecmp` results. -/
def cmpCascade (unitA unitB : Option CStr)
    (streetA streetB suburbA suburbB stateA stateB : CStr) : Int :=
  if strcasecmp stateA stateB > 0 then 2
  else if strcasecmp stateA stateB < 0 then -2
  else if strcasecmp suburbA suburbB > 0 then 2
  else if strcasecmp suburbA suburbB < 0 then -2
  else if strcasecmp streetA streetB > 0 then 1
  else if strcasecmp streetA streetB < 0 then -1
  else
    match unitA, unitB with
    | some _, none => 1
    | none, some _ => -1
    | none, none => 0
    | some uA, some uB =>
      if strcasecmp uA uB > 0 then 1
      else if strcasecmp uA uB < 0 then -1
      else 0

/-- The function `postaddress_abs_cmp_internal`; `none` is undefined
behaviour in one of the splits. -/
def postaddress_abs_cmp_internal (a b : postaddress) : Option Int :=
  let (unitA, addressA) := cmpUnitSplit a.data
  let (unitB, addressB) := cmpUnitSplit b.data
  match splitSkip2 addressA ',' with
  | none => none
  | some (streetA, addressA) =>
  match splitSkip2 addressB ',' with
  | none => none
  | some (streetB, addressB) =>
  match splitSkip2 addressA ',' with
  | none => none
  | some (suburbA, addressA) =>
  match splitSkip2 addressB ',' with
  | none => none
  | some (suburbB, addressB) =>
  match splitState addressA with
  | none => none
  | some stateA =>
  match splitState addressB with
  | none => none
  | some stateB =>
    some (cmpCascade unitA unitB streetA streetB suburbA suburbB stateA stateB)

/-- Operator `<`. -/
def postaddress_abs_lt (a b : postaddress) : Option Bool :=
  (postaddress_abs_cmp_internal a b).map (fun r => decide (r < 0))

/-- Operator `<=`. -/
def postaddress_abs_le (a b : postaddress) : Option Bool :=
  (postaddress_abs_cmp_internal a b).map (fun r => decide (r ≤ 0))

/-- Operator `=`. -/
def postaddress_abs_eq (a b : postaddress) : Option Bool :=
  (postaddress_abs_cmp_internal a b).map (fun r => decide (r = 0))

/-- Operator `<>`. -/
def postaddress_abs_ne (a b : postaddress) : Option Bool :=
  (postaddress_abs_cmp_internal a b).map (fun r => decide (r ≠ 0))

/-- Operator `>=`. -/
def postaddress_abs_ge (a b : postaddress) : Option Bool :=
  (postaddress_abs_cmp_internal a b).map (fun r => decide (r ≥ 0))

/-- Operator `>`. -/
def postaddress_abs_gt (a b : postaddress) : Option Bool :=
  (postaddress_abs_cmp_internal a b).map (fun r => decide (r > 0))

/-- Operator `~`. -/
def postaddress_abs_ti (a b : postaddress) : Option Bool :=
  (postaddress_abs_cmp_internal a b).bind fun r1 =>
  (postaddress_abs_cmp_internal a b).map fun r2 =>
    if r1 = 2 ∨ r2 = -2 then false else true

/-- Operator `!~`. -/
def postaddress_abs_nt (a b : postaddress) : Option Bool :=
  (postaddress_abs_cmp_internal a b).bind fun r1 =>
  (postaddress_abs_cmp_internal a b).map fun r2 =>
    if r1 = 2 ∨ r2 = -2 then true else false

/-- The support function `postaddress_abs_cmp`. -/
def postaddress_abs_cmp (a b : postaddress) : Option Int :=
  postaddress_abs_cmp_internal a b

/-- The function `postaddress_hash`: the `uint32` of `hash_any` over the
`strlen` bytes of the text, returned as an `int32`.  The library function
`hash_any` is a parameter. -/
def postaddress_hash (hash_any : CStr → Nat) (a : postaddress) : Int :=
  let u : Nat := hash_any a.data % 2 ^ 32
  if u < 2 ^ 31 then (u : Int) else (u : Int) - 2 ^ 32

/-! ## Reference notions: character classes, regular languages, the grammar -/

/-- Membership of the bracket expression `[a-zA-Z]`: an ASCII letter. -/
def isLetter (c : Char) : Prop :=
  (97 ≤ c.toNat ∧ c.toNat ≤ 122) ∨ (65 ≤ c.toNat ∧ c.toNat ≤ 90)

/-- Membership of `[A-Z]`: an uppercase ASCII letter. -/
def isUpper (c : Char) : Prop := 65 ≤ c.toNat ∧ c.toNat ≤ 90

/-- Membership of `[0-9]`: an ASCII digit. -/
def isDigit (c : Char) : Prop := 48 ≤ c.toNat ∧ c.toNat ≤ 57

instance (c : Char) : Decidable (isLetter c) := by unfold isLetter; infer_instance
instance (c : Char) : Decidable (isUpper c) := by unfold isUpper; infer_instance
instance (c : Char) : Decidable (isDigit c) := by unfold isDigit; infer_instance

/-- The strings a regular expression denotes: the reference semantics of
the matcher. -/
def Regex.Lang : Regex → CStr → Prop
  | .nothing, _ => False
  | .eps, s => s = []
  | .bracket rs, s => ∃ c, Regex.inBracket rs c = true ∧ s = [c]
  | .seq r q, s => ∃ u v, Regex.Lang r u ∧ Regex.Lang q v ∧ s = u ++ v
  | .alt r q, s => Regex.Lang r s ∨ Regex.Lang q s
  | .star r, s => ∃ parts : List CStr, (∀ p ∈ parts, p ≠ [] ∧ Regex.Lang r p) ∧ s = parts.flatten

/-- One or more digits. -/
def Digits (s : CStr) : Prop := s ≠ [] ∧ ∀ c ∈ s, isDigit c

/-- An alphabetic word: one or more ASCII letters. -/
def Word (w : CStr) : Prop := w ≠ [] ∧ ∀ c ∈ w, isLetter c

/-- One or more alphabetic words separated by single spaces. -/
def Words (s : CStr) : Prop :=
  ∃ (w : CStr) (ws : List CStr), Word w ∧ (∀ v ∈ ws, Word v) ∧ s = [' '].intercalate (w :: ws)

/-- The text in front of the street: nothing, or the unit and its `/`. -/
def unitPrefix : Option CStr → CStr
  | none => []
  | some u => u ++ ['/']

/-- What the checks of `postadd_in` establish: the argument is the pieces put
back together around their delimiters, no piece holds the delimiter it was
split at, and every piece is in the language of its pattern. -/
def Splits (str : CStr) (F : Fields) : Prop :=
  str = unitPrefix F.unit ++ (F.street ++ ',' :: (F.suburb ++ ',' :: F.state_postcode)) ∧
  (match F.unit with
    | none => '/' ∉ str
    | some u => '/' ∉ u ∧ Regex.Lang unitPattern u) ∧
  ',' ∉ F.street ∧ ',' ∉ F.suburb ∧
  Regex.Lang streetPattern F.street ∧ Regex.Lang suburbPattern F.suburb ∧
  Regex.Lang statePostcodePattern F.state_postcode

/-- A character that can occur inside a field: a letter, a digit or a space. -/
def FieldChar (c : Char) : Prop := isLetter c ∨ isDigit c ∨ c = ' '

instance (c : Char) : Decidable (FieldChar c) := by unfold FieldChar; infer_instance

/-- The grammar `[unit/]street, suburb, STATE POSTCODE` of whole texts, in the
words of the specification: an optional prefix of one letter, one or more
digits and `/`; then one or more digits, one space, words; `,` and one space,
words; `,` and one space, two uppercase letters, one space, four digits. -/
def AddressForm (s : CStr) : Prop :=
  ∃ (p num st sub : CStr) (a b : Char) (pc : CStr),
    (p = [] ∨ ∃ l ds, isLetter l ∧ Digits ds ∧ p = l :: ds ++ ['/']) ∧
    Digits num ∧ Words st ∧ Words sub ∧ isUpper a ∧ isUpper b ∧
    pc.length = 4 ∧ (∀ c ∈ pc, isDigit c) ∧
    s = p ++ (num ++ ' ' :: (st ++ ',' :: ' ' :: (sub ++ ',' :: ' ' :: a :: b :: ' ' :: pc)))

/-! ## Reference notions for the comparison -/

/-- The splits of `postaddress_abs_cmp_internal` on one of its two texts:
the unit, street, suburb and state it goes on to compare. -/
def cmpFields (data : CStr) : Option (Option CStr × CStr × CStr × CStr) :=
  match splitSkip2 (cmpUnitSplit data).2 ',' with
  | none => none
  | some (street, address) =>
    match splitSkip2 address ',' with
    | none => none
    | some (suburb, address) =>
      match splitState address with
      | none => none
      | some state => some ((cmpUnitSplit data).1, street, suburb, state)

/-- The state the parser validated: the two letters of `state_postcode`
between its two spaces. -/
def Fields.state (F : Fields) : CStr := (F.state_postcode.drop 1).take 2

/-- The suburb the parser validated, without the space that separates it
from the comma. -/
def Fields.suburbName (F : Fields) : CStr := F.suburb.drop 1

/-- Equality of two texts when ASCII letter case is ignored. -/
def ciEq (x y : CStr) : Prop := x.map tolower = y.map tolower

instance (x y : CStr) : Decidable (ciEq x y) := by unfold ciEq; infer_instance

/-- The four-level lexicographic reference, state > suburb > street > unit,
over the fields of the parser. -/
def cmpReference (A B : Fields) : Int :=
  if ¬ ciEq A.state B.state then
    (if strcasecmp A.state B.state > 0 then 2 else -2)
  else if ¬ ciEq A.suburbName B.suburbName then
    (if strcasecmp A.suburbName B.suburbName > 0 then 2 else -2)
  else if ¬ ciEq A.street B.street then
    (if strcasecmp A.street B.street > 0 then 1 else -1)
  else
    match A.unit, B.unit with
    | some _, none => 1
    | none, some _ => -1
    | none, none => 0
    | some u, some v =>
      if strcasecmp u v > 0 then 1 else if strcasecmp u v < 0 then -1 else 0

/-! ## Reference notions for rejection: the parts of a raw text -/

/-- The text before the first `c`; all of `s` when it has none. -/
def beforeFirst (c : Char) (s : CStr) : CStr := s.takeWhile (fun x => x != c)

/-- The text after the first `c`; empty when `s` has none. -/
def afterFirst (c : Char) (s : CStr) : CStr := (s.dropWhile (fun x => x != c)).drop 1

/-- The raw text after the unit separator: after the first `/`, or the whole
text when it has no `/`. -/
def afterUnit (s : CStr) : CStr := if '/' ∈ s then afterFirst '/' s else s

/-- The street part of a raw text: up to the first comma after the unit. -/
def streetPart (s : CStr) : CStr := beforeFirst ',' (afterUnit s)

/-- The suburb part of a raw text: between the first and the second comma. -/
def suburbPart (s : CStr) : CStr := beforeFirst ',' (afterFirst ',' (afterUnit s))

/-- The state and postcode segment of a raw text: after the second comma. -/
def statePostcodePart (s : CStr) : CStr := afterFirst ',' (afterFirst ',' (afterUnit s))

/-- The state of a raw text: in the last segment, after its first character
(the separating space), up to the next space. -/
def statePart (s : CStr) : CStr := beforeFirst ' ' ((statePostcodePart s).drop 1)

/-- The postcode of a raw text: what follows the state and its space. -/
def postcodePart (s : CStr) : CStr := afterFirst ' ' ((statePostcodePart s).drop 1)

/-- The malformations of the grammar-rejection property: fewer than two
commas after the unit separator; a part before the first `/` that is not one
letter and one or more digits; a street part not starting with a digit; a
suburb part with a digit in it; a state that is not two uppercase letters; a
postcode that is not four digits. -/
def Malformed (s : CStr) : Prop :=
  (afterUnit s).count ',' < 2 ∨
  ('/' ∈ s ∧ ¬ ∃ l ds, isLetter l ∧ Digits ds ∧ beforeFirst '/' s = l :: ds) ∨
  (¬ ∃ d rest, isDigit d ∧ streetPart s = d :: rest) ∨
  (∃ c ∈ suburbPart s, isDigit c) ∨
  ¬ ((statePart s).length = 2 ∧ ∀ c ∈ statePart s, isUpper c) ∨
  ¬ ((postcodePart s).length = 4 ∧ ∀ c ∈ postcodePart s, isDigit c)

/-! ## The derived views `show_postcode`, `show_unit`, `show` -/

/-- The function `show_postcode`: the text from offset `strlen - 4` on.
`none` when the text has fewer than four characters, where the pointer would
be moved in front of the buffer. -/
def show_postcode (a : postaddress) : Option CStr :=
  let postcode := a.data
  let address_len := postcode.length
  if address_len < 4 then none else some (postcode.drop (address_len - 4))

/-- The function `show_unit`: the text before the first `/`, or the text
`NULL` when there is no `/`. -/
def show_unit (a : postaddress) : CStr :=
  match strchr a.data '/' with
  | none => "NULL".toList
  | some i => a.data.take i

/-- The function `show` of the source (`show` is a keyword of Lean): cut the
last five characters, step over the first space, end the text at the first
comma (`address`, of `j` characters) and `strcat` to it the text from the
second comma on (`state`, after the search).  `none` when the text has fewer
than five characters, when one of the three searches finds nothing, or when
the two operands of `strcat` overlap: it writes the characters of `state` and
a terminator from the first comma on, and `state` starts `k + 1` characters
after the first comma, so the ranges overlap when `state` has more than `k`
characters, and copying between overlapping objects is undefined. -/
def showAddress (a : postaddress) : Option CStr :=
  let address := a.data
  let address_len := address.length
  if address_len < 5 then none
  else
    let address := address.take (address_len - 5)
    match strchr address ' ' with
    | none => none
    | some i =>
      let address := address.drop (i + 1)
      match strchr address ',' with
      | none => none
      | some j =>
        let state := address.drop (j + 1)
        match strchr state ',' with
        | none => none
        | some k =>
          let state := state.drop k
          if k < state.length then none
          else some (address.take j ++ state)

/-! ## Reference notions for the derived views, the error and the order -/

/-- The error message in the words of the specification. -/
def spec_error_msg (text : CStr) : CStr :=
  "invalid input syntax for address: ".toList ++ Char.ofNat 34 :: text ++ [Char.ofNat 34]

/-- The postcode the parser validated: `state_postcode` after its space, two
letters and space. -/
def Fields.postcode (F : Fields) : CStr := F.state_postcode.drop 4

/-- The street name: the street without its leading digits and the space
after them. -/
def Fields.streetName (F : Fields) : CStr :=
  (F.street.dropWhile (fun c => decide (isDigit c))).drop 1

/-- The house number: the leading digits of the street. -/
def Fields.houseNumber (F : Fields) : CStr :=
  F.street.takeWhile (fun c => decide (isDigit c))

/-- The text `s` with its last four characters replaced by `pc`. -/
def setPostcode (s pc : CStr) : CStr := s.take (s.length - 4) ++ pc

/-- What makes three comparison results `x` (first with second), `y` (second
with third) and `z` (first with third) those of a transitive order. -/
def TransTriple (x y z : Int) : Prop :=
  (x < 0 → y ≤ 0 → z < 0) ∧ (x ≤ 0 → y < 0 → z < 0) ∧ (x = 0 → y = 0 → z = 0)

/-! ## Characters -/

theorem toNat_ofNat_of_lt (n : Nat) (h : n < 55296) : (Char.ofNat n).toNat = n := by
  have hv : n.isValidChar := Or.inl h
  simp [Char.ofNat, hv, Char.ofNatAux, Char.toNat, UInt32.toNat]

theorem char_eq_of_toNat_eq {c d : Char} (h : c.toNat = d.toNat) : c = d := by
  rw [← Char.ofNat_toNat c, ← Char.ofNat_toNat d, h]

theorem tolower_toNat (c : Char) :
    (tolower c).toNat = if 65 ≤ c.toNat ∧ c.toNat ≤ 90 then c.toNat + 32 else c.toNat := by
  unfold tolower
  split
  · next h => exact toNat_ofNat_of_lt _ (by omega)
  · rfl

/-- Lower-casing fixes every character that is not a letter, and never
produces one from another character. -/
theorem tolower_eq_iff_of_not_letter (c d : Char) (hd : ¬ isLetter d) :
    tolower c = d ↔ c = d := by
  have hd' : ¬ ((97 ≤ d.toNat ∧ d.toNat ≤ 122) ∨ (65 ≤ d.toNat ∧ d.toNat ≤ 90)) := hd
  constructor
  · intro h
    have h1 := congrArg Char.toNat h
    rw [tolower_toNat] at h1
    apply char_eq_of_toNat_eq
    split at h1 <;> omega
  · rintro rfl
    apply char_eq_of_toNat_eq
    rw [tolower_toNat]
    split <;> omega

theorem tolower_ne_nul (c : Char) (h : c.toNat ≠ 0) : (tolower c).toNat ≠ 0 := by
  rw [tolower_toNat]; split <;> omega

/-! ## `strchr` -/

theorem strchr_eq_none_iff (s : CStr) (c : Char) : strchr s c = none ↔ c ∉ s := by
  induction s with
  | nil => simp [strchr]
  | cons x xs ih =>
    by_cases h : x = c
    · simp [strchr, h]
    · have h' : ¬ c = x := fun e => h e.symm
      simp [strchr, h, h', ih]

theorem strchr_append_cons (u v : CStr) (c : Char) (h : c ∉ u) :
    strchr (u ++ c :: v) c = some u.length := by
  induction u with
  | nil => simp [strchr]
  | cons x xs ih =>
    have hx : ¬ x = c := fun e => h (by simp [e])
    have hxs : c ∉ xs := fun e => h (by simp [e])
    simp [strchr, hx, ih hxs]

theorem strchr_some (s : CStr) (c : Char) (i : Nat) (h : strchr s c = some i) :
    c ∉ s.take i ∧ s = s.take i ++ c :: s.drop (i + 1) := by
  induction s generalizing i with
  | nil => simp [strchr] at h
  | cons x xs ih =>
    by_cases hx : x = c
    · simp [strchr, hx] at h
      subst h
      simp [hx]
    · simp only [strchr, hx, if_false, Option.map_eq_some'] at h
      obtain ⟨j, hj, rfl⟩ := h
      have := ih j hj
      have hx' : ¬ c = x := fun e => hx e.symm
      refine ⟨by simpa [hx'] using this.1, ?_⟩
      simpa using this.2

theorem strchr_map_tolower (s : CStr) (d : Char) (hd : ¬ isLetter d) :
    strchr (s.map tolower) d = strchr s d := by
  induction s with
  | nil => rfl
  | cons x xs ih =>
    by_cases hx : x = d
    · subst hx
      have : tolower x = x := (tolower_eq_iff_of_not_letter x x hd).2 rfl
      simp [strchr, this]
    · have : ¬ tolower x = d := fun e => hx ((tolower_eq_iff_of_not_letter x d hd).1 e)
      simp [strchr, hx, this, ih]

/-! ## `strcasecmp` -/

theorem strcasecmp_antisymm (x y : CStr) : strcasecmp y x = - strcasecmp x y := by
  induction x generalizing y with
  | nil => cases y <;> simp [strcasecmp]
  | cons a xs ih =>
    cases y with
    | nil => simp [strcasecmp]
    | cons b ys =>
      by_cases h : tolower a = tolower b
      · simp [strcasecmp, h, ih]
      · have h' : ¬ tolower b = tolower a := fun e => h e.symm
        simp [strcasecmp, h, h']

theorem strcasecmp_eq_zero_of_map_eq (x y : CStr) (h : x.map tolower = y.map tolower) :
    strcasecmp x y = 0 := by
  induction x generalizing y with
  | nil => cases y <;> simp_all [strcasecmp]
  | cons a xs ih =>
    cases y with
    | nil => simp at h
    | cons b ys =>
      simp only [List.map_cons, List.cons.injEq] at h
      simp [strcasecmp, h.1, ih ys h.2]

theorem map_eq_of_strcasecmp_eq_zero (x y : CStr) (hx : ∀ c ∈ x, c.toNat ≠ 0)
    (hy : ∀ c ∈ y, c.toNat ≠ 0) (h : strcasecmp x y = 0) :
    x.map tolower = y.map tolower := by
  induction x generalizing y with
  | nil =>
    cases y with
    | nil => rfl
    | cons b ys =>
      have := tolower_ne_nul b (hy b (by simp))
      simp [strcasecmp] at h
      omega
  | cons a xs ih =>
    cases y with
    | nil =>
      have := tolower_ne_nul a (hx a (by simp))
      simp [strcasecmp] at h
      omega
    | cons b ys =>
      by_cases hab : tolower a = tolower b
      · simp only [strcasecmp, hab, if_true] at h
        have := ih ys (fun c hc => hx c (by simp [hc])) (fun c hc => hy c (by simp [hc])) h
        simp [hab, this]
      · simp only [strcasecmp, hab, if_false] at h
        exact absurd (char_eq_of_toNat_eq (by omega)) hab

theorem strcasecmp_eq_zero_iff (x y : CStr) (hx : ∀ c ∈ x, c.toNat ≠ 0)
    (hy : ∀ c ∈ y, c.toNat ≠ 0) :
    strcasecmp x y = 0 ↔ x.map tolower = y.map tolower :=
  ⟨map_eq_of_strcasecmp_eq_zero x y hx hy, strcasecmp_eq_zero_of_map_eq x y⟩

/-! ## The matcher decides the language -/

namespace Regex

theorem nullable_iff (r : Regex) : nullable r = true ↔ Lang r [] := by
  induction r with
  | nothing => simp [nullable, Lang]
  | eps => simp [nullable, Lang]
  | bracket rs => simp [nullable, Lang]
  | seq r q ihr ihq => simp [nullable, Lang, ihr, ihq]
  | alt r q ihr ihq => simp [nullable, Lang, ihr, ihq]
  | star r _ => simp only [nullable, Lang, true_iff]; exact ⟨[], by simp, by simp⟩

theorem lang_star_cons (r : Regex) (c : Char) (s : CStr) :
    Lang (star r) (c :: s) ↔ ∃ u v, Lang r (c :: u) ∧ Lang (star r) v ∧ s = u ++ v := by
  constructor
  · rintro ⟨parts, hparts, hs⟩
    cases parts with
    | nil => simp at hs
    | cons p ps =>
      have hp := hparts p (by simp)
      cases p with
      | nil => exact absurd rfl hp.1
      | cons x u =>
        simp only [List.flatten_cons, List.cons_append, List.cons.injEq] at hs
        obtain ⟨rfl, rfl⟩ := hs
        exact ⟨u, ps.flatten, hp.2, ⟨ps, fun q hq => hparts q (by simp [hq]), rfl⟩, rfl⟩
  · rintro ⟨u, v, hu, ⟨ps, hps, rfl⟩, rfl⟩
    refine ⟨(c :: u) :: ps, ?_, by simp⟩
    intro q hq
    rcases List.mem_cons.1 hq with rfl | hq
    · exact ⟨by simp, hu⟩
    · exact hps q hq

theorem deriv_iff (r : Regex) (c : Char) (s : CStr) : Lang (deriv r c) s ↔ Lang r (c :: s) := by
  induction r generalizing s with
  | nothing => simp [deriv, Lang]
  | eps => simp [deriv, Lang]
  | bracket rs =>
    by_cases h : inBracket rs c = true
    · simp only [deriv, h, if_true, Lang]
      constructor
      · rintro rfl; exact ⟨c, h, rfl⟩
      · rintro ⟨d, _, hd⟩
        simp only [List.cons.injEq] at hd
        exact hd.2
    · simp only [deriv, h, Lang]
      constructor
      · intro hf; exact hf.elim
      · rintro ⟨d, hd, he⟩
        simp only [List.cons.injEq] at he
        exact h (he.1 ▸ hd)
  | seq r q ihr ihq =>
    have key : Lang (seq r q) (c :: s) ↔
        (∃ u v, Lang r (c :: u) ∧ Lang q v ∧ s = u ++ v) ∨ (Lang r [] ∧ Lang q (c :: s)) := by
      constructor
      · rintro ⟨u, v, hu, hv, he⟩
        cases u with
        | nil => right; simp only [List.nil_append] at he; exact ⟨hu, he ▸ hv⟩
        | cons x u =>
          simp only [List.cons_append, List.cons.injEq] at he
          obtain ⟨rfl, rfl⟩ := he
          exact Or.inl ⟨u, v, hu, hv, rfl⟩
      · rintro (⟨u, v, hu, hv, rfl⟩ | ⟨h1, h2⟩)
        · exact ⟨c :: u, v, hu, hv, rfl⟩
        · exact ⟨[], c :: s, h1, h2, rfl⟩
    rw [key]
    by_cases hn : nullable r = true
    · simp only [deriv, hn, if_true, Lang, ihr, ihq]
      have := (nullable_iff r).1 hn
      simp [this]
    · simp only [deriv, hn, Lang, ihr]
      have : ¬ Lang r [] := fun h => hn ((nullable_iff r).2 h)
      simp [this]
  | alt r q ihr ihq => simp [deriv, Lang, ihr, ihq]
  | star r ih =>
    rw [lang_star_cons]
    simp only [deriv, Lang, ih]

theorem rmatch_iff (r : Regex) (s : CStr) : rmatch r s = true ↔ Lang r s := by
  induction s generalizing r with
  | nil => simpa [rmatch] using nullable_iff r
  | cons c s ih => rw [rmatch, ih, deriv_iff]

theorem lang_times_one (r : Regex) (s : CStr) : Lang (times r 1) s ↔ Lang r s := by
  simp [times, Lang]

theorem lang_star_bracket (rs : List (Char × Char)) (s : CStr) :
    Lang (star (bracket rs)) s ↔ ∀ c ∈ s, inBracket rs c = true := by
  induction s with
  | nil => simp only [List.not_mem_nil, false_imp_iff, implies_true, iff_true]
           exact ⟨[], by simp, by simp⟩
  | cons x xs ih =>
    rw [lang_star_cons]
    constructor
    · rintro ⟨u, v, ⟨d, hd, he⟩, hv, rfl⟩
      simp only [List.cons.injEq] at he
      obtain ⟨rfl, rfl⟩ := he
      intro c hc
      rcases List.mem_cons.1 hc with rfl | hc
      · exact hd
      · exact ih.1 hv c (by simpa using hc)
    · intro h
      exact ⟨[], xs, ⟨x, h x (by simp), rfl⟩, ih.2 (fun c hc => h c (by simp [hc])), rfl⟩

theorem lang_plus_bracket (rs : List (Char × Char)) (s : CStr) :
    Lang (plus (bracket rs)) s ↔ s ≠ [] ∧ ∀ c ∈ s, inBracket rs c = true := by
  rw [plus, Lang]
  constructor
  · rintro ⟨u, v, ⟨d, hd, rfl⟩, hv, rfl⟩
    refine ⟨by simp, ?_⟩
    intro c hc
    rcases List.mem_cons.1 hc with rfl | hc
    · exact hd
    · exact (lang_star_bracket rs v).1 hv c hc
  · rintro ⟨hne, h⟩
    cases s with
    | nil => exact absurd rfl hne
    | cons x xs =>
      exact ⟨[x], xs, ⟨x, h x (by simp), rfl⟩,
        (lang_star_bracket rs xs).2 (fun c hc => h c (by simp [hc])), rfl⟩

end Regex

theorem inBracket_alpha (c : Char) :
    Regex.inBracket [('a', 'z'), ('A', 'Z')] c = true ↔ isLetter c := by
  have h1 : ('a' : Char).toNat = 97 := rfl
  have h2 : ('z' : Char).toNat = 122 := rfl
  have h3 : ('A' : Char).toNat = 65 := rfl
  have h4 : ('Z' : Char).toNat = 90 := rfl
  simp [Regex.inBracket, isLetter, h1, h2, h3, h4]

theorem inBracket_upper (c : Char) : Regex.inBracket [('A', 'Z')] c = true ↔ isUpper c := by
  have h3 : ('A' : Char).toNat = 65 := rfl
  have h4 : ('Z' : Char).toNat = 90 := rfl
  simp [Regex.inBracket, isUpper, h3, h4]

theorem inBracket_digit (c : Char) : Regex.inBracket [('0', '9')] c = true ↔ isDigit c := by
  have h3 : ('0' : Char).toNat = 48 := rfl
  have h4 : ('9' : Char).toNat = 57 := rfl
  simp [Regex.inBracket, isDigit, h3, h4]

theorem inBracket_space (c : Char) : Regex.inBracket [(' ', ' ')] c = true ↔ c = ' ' := by
  have h3 : (' ' : Char).toNat = 32 := rfl
  simp only [Regex.inBracket, List.any_cons, List.any_nil, Bool.or_false, decide_eq_true_eq, h3]
  constructor
  · intro h; exact char_eq_of_toNat_eq (by omega)
  · rintro rfl; simp

theorem lang_digits (s : CStr) : Regex.Lang (Regex.plus cDigit) s ↔ Digits s := by
  simp only [cDigit, Regex.lang_plus_bracket, inBracket_digit, Digits]

theorem lang_word (s : CStr) : Regex.Lang (Regex.plus cAlpha) s ↔ Word s := by
  simp only [cAlpha, Regex.lang_plus_bracket, inBracket_alpha, Word]

theorem lang_space (s : CStr) : Regex.Lang (Regex.times cSpace 1) s ↔ s = [' '] := by
  simp [Regex.lang_times_one, cSpace, Regex.Lang, inBracket_space]

theorem intercalate_space (w : CStr) (ws : List CStr) :
    [' '].intercalate (w :: ws) = w ++ (ws.map (fun v => ' ' :: v)).flatten := by
  induction ws generalizing w with
  | nil => simp [List.intercalate, List.intersperse]
  | cons v vs ih =>
    have := ih v
    simp only [List.intercalate] at this ⊢
    simp [List.intersperse, this]

theorem lang_words (s : CStr) :
    Regex.Lang (Regex.seq (Regex.plus cAlpha)
      (Regex.star (Regex.seq (Regex.times cSpace 1) (Regex.plus cAlpha)))) s ↔ Words s := by
  constructor
  · intro h
    rw [Regex.Lang] at h
    obtain ⟨w, t, hw, ht, rfl⟩ := h
    rw [Regex.Lang] at ht
    obtain ⟨parts, hparts, rfl⟩ := ht
    have hp : ∀ p ∈ parts, Word (p.drop 1) ∧ p = ' ' :: p.drop 1 := by
      intro p hp
      have := (hparts p hp).2
      rw [Regex.Lang] at this
      obtain ⟨u, v, hu, hv, rfl⟩ := this
      rw [lang_space] at hu
      subst hu
      exact ⟨by simpa using (lang_word v).1 hv, by simp⟩
    refine ⟨w, parts.map (fun p => p.drop 1), (lang_word w).1 hw, ?_, ?_⟩
    · intro v hv
      obtain ⟨p, hpm, rfl⟩ := List.mem_map.1 hv
      exact (hp p hpm).1
    · rw [intercalate_space, List.map_map]
      congr 2
      conv_lhs => rw [← List.map_id parts]
      apply List.map_congr_left
      intro p hpm
      simpa using (hp p hpm).2
  · rintro ⟨w, ws, hw, hws, rfl⟩
    rw [intercalate_space, Regex.Lang]
    refine ⟨w, _, (lang_word w).2 hw, ?_, rfl⟩
    rw [Regex.Lang]
    refine ⟨ws.map (fun v => ' ' :: v), ?_, rfl⟩
    intro p hp
    obtain ⟨v, hv, rfl⟩ := List.mem_map.1 hp
    refine ⟨by simp, ?_⟩
    rw [Regex.Lang]
    exact ⟨[' '], v, (lang_space _).2 rfl, (lang_word v).2 (hws v hv), rfl⟩

/-! ## The four patterns -/

theorem regexMatch_eq_zero_iff (str : CStr) (p : Regex) :
    regexMatch str p = 0 ↔ ¬ Regex.Lang p str := by
  rw [← Regex.rmatch_iff]
  unfold regexMatch
  split <;> simp_all

theorem unit_lang_iff (u : CStr) :
    Regex.Lang unitPattern u ↔ ∃ l ds, isLetter l ∧ Digits ds ∧ u = l :: ds := by
  rw [unitPattern, Regex.Lang]
  constructor
  · rintro ⟨a, ds, ha, hds, rfl⟩
    rw [Regex.lang_times_one, cAlpha, Regex.Lang] at ha
    obtain ⟨l, hl, rfl⟩ := ha
    exact ⟨l, ds, (inBracket_alpha l).1 hl, (lang_digits ds).1 hds, rfl⟩
  · rintro ⟨l, ds, hl, hds, rfl⟩
    refine ⟨[l], ds, ?_, (lang_digits ds).2 hds, rfl⟩
    rw [Regex.lang_times_one, cAlpha, Regex.Lang]
    exact ⟨l, (inBracket_alpha l).2 hl, rfl⟩

theorem street_lang_iff (s : CStr) :
    Regex.Lang streetPattern s ↔ ∃ num ws, Digits num ∧ Words ws ∧ s = num ++ ' ' :: ws := by
  rw [streetPattern, Regex.Lang]
  constructor
  · rintro ⟨num, t, hnum, ht, rfl⟩
    rw [Regex.Lang] at ht
    obtain ⟨sp, ws, hsp, hws, rfl⟩ := ht
    rw [lang_space] at hsp
    subst hsp
    exact ⟨num, ws, (lang_digits num).1 hnum, (lang_words ws).1 hws, rfl⟩
  · rintro ⟨num, ws, hnum, hws, rfl⟩
    refine ⟨num, ' ' :: ws, (lang_digits num).2 hnum, ?_, rfl⟩
    rw [Regex.Lang]
    exact ⟨[' '], ws, (lang_space _).2 rfl, (lang_words ws).2 hws, rfl⟩

theorem suburb_lang_iff (s : CStr) :
    Regex.Lang suburbPattern s ↔ ∃ ws, Words ws ∧ s = ' ' :: ws := by
  rw [suburbPattern, Regex.Lang]
  constructor
  · rintro ⟨sp, ws, hsp, hws, rfl⟩
    rw [lang_space] at hsp
    subst hsp
    exact ⟨ws, (lang_words ws).1 hws, rfl⟩
  · rintro ⟨ws, hws, rfl⟩
    exact ⟨[' '], ws, (lang_space _).2 rfl, (lang_words ws).2 hws, rfl⟩

theorem state_postcode_lang_iff (s : CStr) :
    Regex.Lang statePostcodePattern s ↔
      ∃ a b pc, isUpper a ∧ isUpper b ∧ pc.length = 4 ∧ (∀ c ∈ pc, isDigit c) ∧
        s = ' ' :: a :: b :: ' ' :: pc := by
  simp only [statePostcodePattern, Regex.Lang, Regex.times, cSpace, cUpper, cDigit,
    inBracket_space, inBracket_upper, inBracket_digit]
  constructor
  · rintro ⟨_, _, ⟨_, _, ⟨_, rfl, rfl⟩, rfl, rfl⟩, ⟨_, _, ⟨_, _, ⟨a, ha, rfl⟩,
      ⟨_, _, ⟨b, hb, rfl⟩, rfl, rfl⟩, rfl⟩, ⟨_, _, ⟨_, _, ⟨_, rfl, rfl⟩, rfl, rfl⟩,
      ⟨_, _, ⟨d1, h1, rfl⟩, ⟨_, _, ⟨d2, h2, rfl⟩, ⟨_, _, ⟨d3, h3, rfl⟩,
      ⟨_, _, ⟨d4, h4, rfl⟩, rfl, rfl⟩, rfl⟩, rfl⟩, rfl⟩, rfl⟩, rfl⟩, rfl⟩
    refine ⟨a, b, [d1, d2, d3, d4], ha, hb, rfl, ?_, by simp⟩
    intro c hc
    simp only [List.mem_cons, List.mem_singleton, List.not_mem_nil, or_false] at hc
    rcases hc with rfl | rfl | rfl | rfl <;> assumption
  · rintro ⟨a, b, pc, ha, hb, hlen, hpc, rfl⟩
    match pc, hlen, hpc with
    | [d1, d2, d3, d4], _, hpc =>
      refine ⟨[' '], _, ⟨[' '], [], ⟨' ', rfl, rfl⟩, rfl, rfl⟩, ⟨[a, b], _,
        ⟨[a], [b], ⟨a, ha, rfl⟩, ⟨[b], [], ⟨b, hb, rfl⟩, rfl, rfl⟩, rfl⟩,
        ⟨[' '], [d1, d2, d3, d4], ⟨[' '], [], ⟨' ', rfl, rfl⟩, rfl, rfl⟩,
          ⟨[d1], [d2, d3, d4], ⟨d1, hpc d1 (by simp), rfl⟩,
           ⟨[d2], [d3, d4], ⟨d2, hpc d2 (by simp), rfl⟩,
            ⟨[d3], [d4], ⟨d3, hpc d3 (by simp), rfl⟩,
             ⟨[d4], [], ⟨d4, hpc d4 (by simp), rfl⟩, rfl, rfl⟩, rfl⟩, rfl⟩, rfl⟩, rfl⟩, rfl⟩, rfl⟩

/-! ## What the input function accepts -/

theorem take_append_cons (u v : CStr) (c : Char) : (u ++ c :: v).take u.length = u :=
  List.take_left u (c :: v)

theorem drop_append_cons (u v : CStr) (c : Char) : (u ++ c :: v).drop (u.length + 1) = v := by
  rw [List.drop_append]; rfl

theorem drop_append_cons_cons (u v : CStr) (c d : Char) :
    (u ++ c :: d :: v).drop (u.length + 2) = v := by
  rw [List.drop_append]; rfl

/-- The checks after the unit, on the text `address` that follows it. -/
theorem rest_ok_iff (str address : CStr) (unit : Option CStr) (F : Fields) :
    (match strchr address ',' with
      | none => (Except.error (invalid_postadd_msg str) : Except CStr Fields)
      | some j =>
        if regexMatch (address.take j) streetPattern = 0 then .error (invalid_postadd_msg str)
        else
          match strchr (address.drop (j + 1)) ',' with
          | none => .error (invalid_postadd_msg str)
          | some k =>
            if regexMatch ((address.drop (j + 1)).take k) suburbPattern = 0 then
              .error (invalid_postadd_msg str)
            else if regexMatch ((address.drop (j + 1)).drop (k + 1)) statePostcodePattern = 0 then
              .error (invalid_postadd_msg str)
            else .ok ⟨unit, address.take j, (address.drop (j + 1)).take k,
              (address.drop (j + 1)).drop (k + 1)⟩) = .ok F ↔
    (F.unit = unit ∧ address = F.street ++ ',' :: (F.suburb ++ ',' :: F.state_postcode) ∧
      ',' ∉ F.street ∧ ',' ∉ F.suburb ∧
      Regex.Lang streetPattern F.street ∧ Regex.Lang suburbPattern F.suburb ∧
      Regex.Lang statePostcodePattern F.state_postcode) := by
  constructor
  · intro h
    cases hj : strchr address ',' with
    | none => simp [hj] at h
    | some j =>
      simp only [hj] at h
      split at h
      · simp at h
      · next h1 =>
        cases hk : strchr (address.drop (j + 1)) ',' with
        | none => simp [hk] at h
        | some k =>
          simp only [hk] at h
          split at h
          · simp at h
          · next h2 =>
            split at h
            · simp at h
            · next h3 =>
              simp only [Except.ok.injEq] at h
              subst h
              rw [regexMatch_eq_zero_iff, not_not] at h1 h2 h3
              have hj' := strchr_some _ _ _ hj
              have hk' := strchr_some _ _ _ hk
              refine ⟨rfl, ?_, hj'.1, hk'.1, h1, h2, h3⟩
              simp only
              rw [← hk'.2, ← hj'.2]
  · rintro ⟨hu, rfl, hst, hsu, h1, h2, h3⟩
    have hj := strchr_append_cons F.street (F.suburb ++ ',' :: F.state_postcode) ',' hst
    have hk := strchr_append_cons F.suburb F.state_postcode ',' hsu
    have h1' : ¬ regexMatch F.street streetPattern = 0 := by
      rw [regexMatch_eq_zero_iff, not_not]; exact h1
    have h2' : ¬ regexMatch F.suburb suburbPattern = 0 := by
      rw [regexMatch_eq_zero_iff, not_not]; exact h2
    have h3' : ¬ regexMatch F.state_postcode statePostcodePattern = 0 := by
      rw [regexMatch_eq_zero_iff, not_not]; exact h3
    simp only [hj, take_append_cons, drop_append_cons, hk, h1', h2', h3', if_false]
    cases F
    simp_all

theorem fields_ok_iff (str : CStr) (F : Fields) :
    postadd_in_fields str = .ok F ↔ Splits str F := by
  unfold postadd_in_fields Splits
  cases hs : strchr str '/' with
  | none =>
    simp only []
    rw [rest_ok_iff]
    have hno := (strchr_eq_none_iff str '/').1 hs
    constructor
    · rintro ⟨hu, h⟩
      rw [hu]
      exact ⟨by simpa [unitPrefix] using h.1, hno, h.2⟩
    · rintro ⟨h0, hu, h⟩
      cases hF : F.unit with
      | none =>
        rw [hF] at h0
        exact ⟨rfl, by simpa [unitPrefix] using h0, h⟩
      | some u =>
        rw [hF] at h0
        exact absurd (h0 ▸ (by simp [unitPrefix] : '/' ∈ unitPrefix (some u) ++
          (F.street ++ ',' :: (F.suburb ++ ',' :: F.state_postcode)))) hno
  | some i =>
    have hi := strchr_some _ _ _ hs
    by_cases hm : regexMatch (str.take i) unitPattern = 0
    · simp only [hm, if_true]
      constructor
      · intro h; simp at h
      · rintro ⟨h0, hu, _⟩
        exfalso
        cases hF : F.unit with
        | none =>
          rw [hF] at hu
          exact hu (by rw [hi.2]; simp)
        | some u =>
          rw [hF] at hu h0
          have : strchr str '/' = some u.length := by
            rw [h0]
            simp only [unitPrefix, List.append_assoc, List.singleton_append]
            exact strchr_append_cons _ _ _ hu.1
          rw [hs] at this
          simp only [Option.some.injEq] at this
          subst this
          have ht : str.take u.length = u := by
            rw [h0]; simp [unitPrefix]
          rw [ht, regexMatch_eq_zero_iff] at hm
          exact hm hu.2
    · simp only [hm, if_false]
      rw [rest_ok_iff]
      rw [regexMatch_eq_zero_iff, not_not] at hm
      constructor
      · rintro ⟨hu, h⟩
        rw [hu]
        refine ⟨?_, ⟨hi.1, hm⟩, h.2⟩
        rw [← h.1]
        simpa [unitPrefix] using hi.2
      · rintro ⟨h0, hu, h⟩
        cases hF : F.unit with
        | none =>
          rw [hF] at hu
          exact absurd (by rw [hi.2]; simp) hu
        | some u =>
          rw [hF] at hu h0
          have : strchr str '/' = some u.length := by
            rw [h0]
            simp only [unitPrefix, List.append_assoc, List.singleton_append]
            exact strchr_append_cons _ _ _ hu.1
          rw [hs] at this
          simp only [Option.some.injEq] at this
          subst this
          have ht : str.take u.length = u := by
            rw [h0]; simp [unitPrefix]
          have hd : str.drop (u.length + 1) =
              F.street ++ ',' :: (F.suburb ++ ',' :: F.state_postcode) := by
            rw [h0]
            simp only [unitPrefix, List.append_assoc, List.singleton_append]
            exact drop_append_cons _ _ _
          exact ⟨by rw [ht], hd, h⟩

/-- The input function either stores its argument or reports the error for
its argument. -/
theorem postadd_in_cases (str : CStr) :
    (∃ F, postadd_in_fields str = .ok F ∧
      postadd_in str = .ok ⟨str.length + 1 + VARHDRSZ, str⟩) ∨
    (postadd_in_fields str = .error (invalid_postadd_msg str) ∧
      postadd_in str = .error (invalid_postadd_msg str)) := by
  have hf : (∃ F, postadd_in_fields str = .ok F) ∨
      postadd_in_fields str = .error (invalid_postadd_msg str) := by
    unfold postadd_in_fields
    cases strchr str '/' with
    | none =>
      simp only []
      split
      · exact Or.inr rfl
      · split
        · exact Or.inr rfl
        · split
          · exact Or.inr rfl
          · split
            · exact Or.inr rfl
            · split
              · exact Or.inr rfl
              · exact Or.inl ⟨_, rfl⟩
    | some i =>
      by_cases hm : regexMatch (str.take i) unitPattern = 0
      · simp [hm]
      · simp only [hm, if_false]
        split
        · exact Or.inr rfl
        · split
          · exact Or.inr rfl
          · split
            · exact Or.inr rfl
            · split
              · exact Or.inr rfl
              · split
                · exact Or.inr rfl
                · exact Or.inl ⟨_, rfl⟩
  rcases hf with ⟨F, hF⟩ | he
  · exact Or.inl ⟨F, hF, by simp [postadd_in, hF]⟩
  · exact Or.inr ⟨he, by simp [postadd_in, he]⟩

theorem postadd_in_ok_iff (str : CStr) (a : postaddress) :
    postadd_in str = .ok a ↔
      (∃ F, postadd_in_fields str = .ok F) ∧ a = ⟨str.length + 1 + VARHDRSZ, str⟩ := by
  rcases postadd_in_cases str with ⟨F, hF, h⟩ | ⟨he, h⟩
  · rw [h]
    constructor
    · intro e; exact ⟨⟨F, hF⟩, by simpa using e.symm⟩
    · rintro ⟨_, rfl⟩; rfl
  · rw [h, he]
    simp

/-! ## Characters of the fields -/

theorem fieldChar_ne_slash {c : Char} (h : FieldChar c) : c ≠ '/' := by
  rintro rfl; revert h; decide

theorem fieldChar_ne_comma {c : Char} (h : FieldChar c) : c ≠ ',' := by
  rintro rfl; revert h; decide

theorem fieldChar_ne_nul {c : Char} (h : FieldChar c) : c.toNat ≠ 0 := by
  rcases h with h | h | rfl
  · unfold isLetter at h; omega
  · unfold isDigit at h; omega
  · decide

theorem isUpper_isLetter {c : Char} (h : isUpper c) : isLetter c := Or.inr h

theorem isUpper_ne_space {c : Char} (h : isUpper c) : c ≠ ' ' := by
  rintro rfl; revert h; decide

theorem digits_fieldChar {s : CStr} (h : Digits s) : ∀ c ∈ s, FieldChar c :=
  fun c hc => Or.inr (Or.inl (h.2 c hc))

theorem words_fieldChar {s : CStr} (h : Words s) : ∀ c ∈ s, FieldChar c := by
  obtain ⟨w, ws, hw, hws, rfl⟩ := h
  rw [intercalate_space]
  intro c hc
  rcases List.mem_append.1 hc with hc | hc
  · exact Or.inl (hw.2 c hc)
  · obtain ⟨p, hp, hcp⟩ := List.mem_flatten.1 hc
    obtain ⟨v, hv, rfl⟩ := List.mem_map.1 hp
    rcases List.mem_cons.1 hcp with rfl | hcv
    · exact Or.inr (Or.inr rfl)
    · exact Or.inl ((hws v hv).2 c hcv)

theorem unit_fieldChar {u : CStr} (h : Regex.Lang unitPattern u) : ∀ c ∈ u, FieldChar c := by
  obtain ⟨l, ds, hl, hds, rfl⟩ := (unit_lang_iff u).1 h
  intro c hc
  rcases List.mem_cons.1 hc with rfl | hc
  · exact Or.inl hl
  · exact digits_fieldChar hds c hc

theorem street_fieldChar {s : CStr} (h : Regex.Lang streetPattern s) :
    ∀ c ∈ s, FieldChar c := by
  obtain ⟨num, ws, hnum, hws, rfl⟩ := (street_lang_iff s).1 h
  intro c hc
  rcases List.mem_append.1 hc with hc | hc
  · exact digits_fieldChar hnum c hc
  · rcases List.mem_cons.1 hc with rfl | hc
    · exact Or.inr (Or.inr rfl)
    · exact words_fieldChar hws c hc

theorem suburb_fieldChar {s : CStr} (h : Regex.Lang suburbPattern s) :
    ∀ c ∈ s, FieldChar c := by
  obtain ⟨ws, hws, rfl⟩ := (suburb_lang_iff s).1 h
  intro c hc
  rcases List.mem_cons.1 hc with rfl | hc
  · exact Or.inr (Or.inr rfl)
  · exact words_fieldChar hws c hc

theorem state_postcode_fieldChar {s : CStr} (h : Regex.Lang statePostcodePattern s) :
    ∀ c ∈ s, FieldChar c := by
  obtain ⟨a, b, pc, ha, hb, _, hpc, rfl⟩ := (state_postcode_lang_iff s).1 h
  intro c hc
  simp only [List.mem_cons] at hc
  rcases hc with rfl | rfl | rfl | rfl | hc
  · exact Or.inr (Or.inr rfl)
  · exact Or.inl (isUpper_isLetter ha)
  · exact Or.inl (isUpper_isLetter hb)
  · exact Or.inr (Or.inr rfl)
  · exact Or.inr (Or.inl (hpc c hc))

theorem not_mem_of_fieldChar {s : CStr} {d : Char} (h : ∀ c ∈ s, FieldChar c)
    (hd : ¬ FieldChar d) : d ∉ s := fun hm => hd (h d hm)

theorem not_fieldChar_slash : ¬ FieldChar '/' := by decide

theorem not_fieldChar_comma : ¬ FieldChar ',' := by decide

/-- The text after the unit of an accepted string has no `/`. -/
theorem slash_not_mem_rest {F : Fields} (h1 : Regex.Lang streetPattern F.street)
    (h2 : Regex.Lang suburbPattern F.suburb)
    (h3 : Regex.Lang statePostcodePattern F.state_postcode) :
    '/' ∉ F.street ++ ',' :: (F.suburb ++ ',' :: F.state_postcode) := by
  have a1 := not_mem_of_fieldChar (street_fieldChar h1) not_fieldChar_slash
  have a2 := not_mem_of_fieldChar (suburb_fieldChar h2) not_fieldChar_slash
  have a3 := not_mem_of_fieldChar (state_postcode_fieldChar h3) not_fieldChar_slash
  simp only [List.mem_append, List.mem_cons, not_or]
  exact ⟨a1, by decide, a2, by decide, a3⟩

/-- Accepted strings are exactly the pieces of `Splits` with the shapes of
the four patterns. -/
theorem accepted_iff_splits (s : CStr) :
    (∃ a, postadd_in s = .ok a) ↔ ∃ F, Splits s F := by
  constructor
  · rintro ⟨a, ha⟩
    obtain ⟨⟨F, hF⟩, _⟩ := (postadd_in_ok_iff s a).1 ha
    exact ⟨F, (fields_ok_iff s F).1 hF⟩
  · rintro ⟨F, hF⟩
    exact ⟨_, (postadd_in_ok_iff s _).2 ⟨⟨F, (fields_ok_iff s F).2 hF⟩, rfl⟩⟩

theorem splits_addressForm {s : CStr} {F : Fields} (h : Splits s F) : AddressForm s := by
  obtain ⟨hs, hu, _, _, h1, h2, h3⟩ := h
  obtain ⟨num, st, hnum, hst, e1⟩ := (street_lang_iff _).1 h1
  obtain ⟨sub, hsub, e2⟩ := (suburb_lang_iff _).1 h2
  obtain ⟨a, b, pc, ha, hb, hlen, hpc, e3⟩ := (state_postcode_lang_iff _).1 h3
  refine ⟨unitPrefix F.unit, num, st, sub, a, b, pc, ?_, hnum, hst, hsub, ha, hb, hlen, hpc, ?_⟩
  · cases hF : F.unit with
    | none => exact Or.inl rfl
    | some u =>
      rw [hF] at hu
      obtain ⟨l, ds, hl, hds, rfl⟩ := (unit_lang_iff u).1 hu.2
      exact Or.inr ⟨l, ds, hl, hds, rfl⟩
  · rw [hs, e1, e2, e3]; simp

theorem addressForm_splits {s : CStr} (h : AddressForm s) : ∃ F, Splits s F := by
  obtain ⟨p, num, st, sub, a, b, pc, hp, hnum, hst, hsub, ha, hb, hlen, hpc, rfl⟩ := h
  have h1 : Regex.Lang streetPattern (num ++ ' ' :: st) :=
    (street_lang_iff _).2 ⟨num, st, hnum, hst, rfl⟩
  have h2 : Regex.Lang suburbPattern (' ' :: sub) := (suburb_lang_iff _).2 ⟨sub, hsub, rfl⟩
  have h3 : Regex.Lang statePostcodePattern (' ' :: a :: b :: ' ' :: pc) :=
    (state_postcode_lang_iff _).2 ⟨a, b, pc, ha, hb, hlen, hpc, rfl⟩
  have c1 := not_mem_of_fieldChar (street_fieldChar h1) not_fieldChar_comma
  have c2 := not_mem_of_fieldChar (suburb_fieldChar h2) not_fieldChar_comma
  rcases hp with rfl | ⟨l, ds, hl, hds, rfl⟩
  · refine ⟨⟨none, num ++ ' ' :: st, ' ' :: sub, ' ' :: a :: b :: ' ' :: pc⟩,
      by simp [unitPrefix], ?_, c1, c2, h1, h2, h3⟩
    have := slash_not_mem_rest (F := ⟨none, num ++ ' ' :: st, ' ' :: sub,
      ' ' :: a :: b :: ' ' :: pc⟩) h1 h2 h3
    simpa using this
  · have hu : Regex.Lang unitPattern (l :: ds) := (unit_lang_iff _).2 ⟨l, ds, hl, hds, rfl⟩
    exact ⟨⟨some (l :: ds), num ++ ' ' :: st, ' ' :: sub, ' ' :: a :: b :: ' ' :: pc⟩,
      by simp [unitPrefix],
      ⟨not_mem_of_fieldChar (unit_fieldChar hu) not_fieldChar_slash, hu⟩, c1, c2, h1, h2, h3⟩

/-! ## The splits of the comparison on an accepted text -/

theorem cmp_internal_eq (a b : postaddress) :
    postaddress_abs_cmp_internal a b =
      match cmpFields a.data, cmpFields b.data with
      | some (uA, stA, suA, sA), some (uB, stB, suB, sB) =>
        some (cmpCascade uA uB stA stB suA suB sA sB)
      | _, _ => none := by
  unfold postaddress_abs_cmp_internal cmpFields
  simp only []
  cases splitSkip2 (cmpUnitSplit a.data).2 ',' with
  | none => simp
  | some p1 =>
    cases splitSkip2 (cmpUnitSplit b.data).2 ',' with
    | none =>
      simp only []
      split <;> simp_all
    | some q1 =>
      simp only []
      cases splitSkip2 p1.2 ',' with
      | none => simp
      | some p2 =>
        cases splitSkip2 q1.2 ',' with
        | none =>
          simp only []
          split <;> simp_all
        | some q2 =>
          simp only []
          cases splitState p2.2 with
          | none => simp
          | some sA =>
            cases splitState q2.2 with
            | none => simp
            | some sB => simp

theorem cmpUnitSplit_of_splits {s : CStr} {F : Fields} (h : Splits s F) :
    cmpUnitSplit s = (F.unit, F.street ++ ',' :: (F.suburb ++ ',' :: F.state_postcode)) := by
  obtain ⟨hs, hu, _⟩ := h
  unfold cmpUnitSplit
  cases hF : F.unit with
  | none =>
    rw [hF] at hu hs
    rw [(strchr_eq_none_iff s '/').2 hu]
    simpa [unitPrefix] using hs
  | some u =>
    rw [hF] at hu hs
    simp only [unitPrefix, List.append_assoc, List.singleton_append] at hs
    have : strchr s '/' = some u.length := by rw [hs]; exact strchr_append_cons _ _ _ hu.1
    rw [this]
    simp only [hs, take_append_cons, drop_append_cons]

theorem splitSkip2_append (u v : CStr) (c d : Char) (h : c ∉ u) :
    splitSkip2 (u ++ c :: d :: v) c = some (u, v) := by
  unfold splitSkip2
  rw [strchr_append_cons _ _ _ h]
  have : u.length + 2 ≤ (u ++ c :: d :: v).length := by simp
  simp only [this, if_true, take_append_cons, drop_append_cons_cons]

theorem cmpFields_of_splits {s : CStr} {F : Fields} (h : Splits s F) :
    cmpFields s = some (F.unit, F.street, F.suburbName, F.state) := by
  have hsplit := cmpUnitSplit_of_splits h
  obtain ⟨_, _, c1, c2, _, h2, h3⟩ := h
  obtain ⟨sub, _, e2⟩ := (suburb_lang_iff _).1 h2
  obtain ⟨a, b, pc, ha, hb, _, _, e3⟩ := (state_postcode_lang_iff _).1 h3
  have c2' : ',' ∉ sub := fun hm => c2 (by rw [e2]; simp [hm])
  have hst : splitState (a :: b :: ' ' :: pc) = some [a, b] := by
    simp [splitState, strchr, isUpper_ne_space ha, isUpper_ne_space hb]
  unfold cmpFields
  rw [hsplit, e2, e3]
  simp only [List.cons_append]
  rw [splitSkip2_append _ _ _ _ c1]
  simp only []
  rw [splitSkip2_append _ _ _ _ c2']
  simp only [hst, Fields.suburbName, Fields.state, e2, e3]
  simp

/-- No field the comparison reads from an accepted text holds a NUL. -/
theorem splits_no_nul {s : CStr} {F : Fields} (h : Splits s F) :
    (∀ c ∈ F.state, c.toNat ≠ 0) ∧ (∀ c ∈ F.suburbName, c.toNat ≠ 0) ∧
    (∀ c ∈ F.street, c.toNat ≠ 0) ∧ (∀ u, F.unit = some u → ∀ c ∈ u, c.toNat ≠ 0) := by
  obtain ⟨_, hu, _, _, h1, h2, h3⟩ := h
  refine ⟨?_, ?_, ?_, ?_⟩
  · intro c hc
    exact fieldChar_ne_nul (state_postcode_fieldChar h3 c
      (List.mem_of_mem_drop (List.mem_of_mem_take hc)))
  · intro c hc
    exact fieldChar_ne_nul (suburb_fieldChar h2 c (List.mem_of_mem_drop hc))
  · intro c hc
    exact fieldChar_ne_nul (street_fieldChar h1 c hc)
  · intro u hF c hc
    rw [hF] at hu
    exact fieldChar_ne_nul (unit_fieldChar hu.2 c hc)

theorem cmpCascade_eq_reference {sa sb : CStr} {A B : Fields} (ha : Splits sa A)
    (hb : Splits sb B) :
    cmpCascade A.unit B.unit A.street B.street A.suburbName B.suburbName A.state B.state =
      cmpReference A B := by
  obtain ⟨na1, na2, na3, _⟩ := splits_no_nul ha
  obtain ⟨nb1, nb2, nb3, _⟩ := splits_no_nul hb
  have e1 := strcasecmp_eq_zero_iff A.state B.state na1 nb1
  have e2 := strcasecmp_eq_zero_iff A.suburbName B.suburbName na2 nb2
  have e3 := strcasecmp_eq_zero_iff A.street B.street na3 nb3
  unfold cmpCascade cmpReference ciEq
  simp only [← e1, ← e2, ← e3]
  by_cases p1 : strcasecmp A.state B.state = 0
  · by_cases p2 : strcasecmp A.suburbName B.suburbName = 0
    · by_cases p3 : strcasecmp A.street B.street = 0
      · simp [p1, p2, p3]
      · rcases lt_or_gt_of_ne p3 with q | q
        · have : ¬ strcasecmp A.street B.street > 0 := by omega
          simp [p1, p2, p3, q, this]
        · simp [p1, p2, p3, q]
    · rcases lt_or_gt_of_ne p2 with q | q
      · have : ¬ strcasecmp A.suburbName B.suburbName > 0 := by omega
        simp [p1, p2, q, this]
      · simp [p1, p2, q]
  · rcases lt_or_gt_of_ne p1 with q | q
    · have : ¬ strcasecmp A.state B.state > 0 := by omega
      simp [p1, q, this]
    · simp [p1, q]

/-- The comparison of two accepted texts is the reference over their parsed
fields. -/
theorem cmp_internal_of_splits {sa sb : CStr} {A B : Fields} (la lb : Nat)
    (ha : Splits sa A) (hb : Splits sb B) :
    postaddress_abs_cmp_internal ⟨la, sa⟩ ⟨lb, sb⟩ = some (cmpReference A B) := by
  rw [cmp_internal_eq]
  simp only [cmpFields_of_splits ha, cmpFields_of_splits hb, cmpCascade_eq_reference ha hb]

/-! ## Shape of the result -/

theorem cmpReference_locality (A B : Fields) :
    (cmpReference A B = 2 ∨ cmpReference A B = -2) ↔
      ¬ (ciEq A.state B.state ∧ ciEq A.suburbName B.suburbName) := by
  unfold cmpReference
  by_cases p1 : ciEq A.state B.state
  · by_cases p2 : ciEq A.suburbName B.suburbName
    · simp only [p1, p2, not_true_eq_false, if_false, and_self, iff_false, not_or]
      split
      · split <;> decide
      · cases A.unit <;> cases B.unit <;> simp only [] <;> try decide
        split
        · decide
        · split <;> decide
    · simp only [p1, p2, not_true_eq_false, not_false_eq_true, if_false, if_true, and_false,
        iff_true]
      split
      · exact Or.inl rfl
      · exact Or.inr rfl
  · simp only [p1, not_false_eq_true, if_true, false_and, iff_true]
    split
    · exact Or.inl rfl
    · exact Or.inr rfl

theorem cmpCascade_antisymm (uA uB : Option CStr) (stA stB suA suB sA sB : CStr) :
    cmpCascade uB uA stB stA suB suA sB sA = - cmpCascade uA uB stA stB suA suB sA sB := by
  unfold cmpCascade
  rw [strcasecmp_antisymm sA sB, strcasecmp_antisymm suA suB, strcasecmp_antisymm stA stB]
  rcases lt_trichotomy (strcasecmp sA sB) 0 with h1 | h1 | h1
  · have a1 : - strcasecmp sA sB > 0 := by omega
    have a2 : ¬ strcasecmp sA sB > 0 := by omega
    simp [h1, a1, a2]
  · simp only [h1, neg_zero, gt_iff_lt, lt_self_iff_false, if_false]
    rcases lt_trichotomy (strcasecmp suA suB) 0 with h2 | h2 | h2
    · have a1 : 0 < - strcasecmp suA suB := by omega
      have a2 : ¬ 0 < strcasecmp suA suB := by omega
      simp [h2, a1, a2]
    · simp only [h2, neg_zero, lt_self_iff_false, if_false]
      rcases lt_trichotomy (strcasecmp stA stB) 0 with h3 | h3 | h3
      · have a1 : 0 < - strcasecmp stA stB := by omega
        have a2 : ¬ 0 < strcasecmp stA stB := by omega
        simp [h3, a1, a2]
      · simp only [h3, neg_zero, lt_self_iff_false, if_false]
        cases uA with
        | none => cases uB <;> simp
        | some u =>
          cases uB with
          | none => simp
          | some v =>
            simp only []
            rw [strcasecmp_antisymm u v]
            rcases lt_trichotomy (strcasecmp u v) 0 with h4 | h4 | h4
            · have a1 : 0 < - strcasecmp u v := by omega
              have a2 : ¬ 0 < strcasecmp u v := by omega
              simp [h4, a1, a2]
            · simp [h4]
            · have a1 : ¬ 0 < - strcasecmp u v := by omega
              have a2 : ¬ strcasecmp u v < 0 := by omega
              have a3 : - strcasecmp u v < 0 := by omega
              simp [h4, a1, a2, a3]
      · have a1 : ¬ 0 < - strcasecmp stA stB := by omega
        have a2 : ¬ strcasecmp stA stB < 0 := by omega
        have a3 : - strcasecmp stA stB < 0 := by omega
        simp [h3, a1, a2, a3]
    · have a1 : ¬ 0 < - strcasecmp suA suB := by omega
      have a2 : ¬ strcasecmp suA suB < 0 := by omega
      have a3 : - strcasecmp suA suB < 0 := by omega
      simp [h2, a1, a2, a3]
  · have a1 : ¬ - strcasecmp sA sB > 0 := by omega
    have a2 : ¬ strcasecmp sA sB < 0 := by omega
    have a3 : - strcasecmp sA sB < 0 := by omega
    simp [h1, a1, a2, a3]

/-- Swapping the arguments negates the result, whenever it is defined. -/
theorem cmp_internal_swap (a b : postaddress) :
    postaddress_abs_cmp_internal b a = (postaddress_abs_cmp_internal a b).map (fun r => -r) := by
  rw [cmp_internal_eq, cmp_internal_eq]
  cases cmpFields a.data with
  | none => cases cmpFields b.data <;> rfl
  | some fa =>
    cases cmpFields b.data with
    | none => rfl
    | some fb =>
      obtain ⟨uA, stA, suA, sA⟩ := fa
      obtain ⟨uB, stB, suB, sB⟩ := fb
      simp only [Option.map_some']
      rw [cmpCascade_antisymm]

/-- The comparison of two accepted addresses is defined. -/
theorem cmp_internal_accepted {sa sb : CStr} {a b : postaddress}
    (ha : postadd_in sa = .ok a) (hb : postadd_in sb = .ok b) :
    ∃ A B, Splits sa A ∧ Splits sb B ∧ a.data = sa ∧ b.data = sb ∧
      postaddress_abs_cmp_internal a b = some (cmpReference A B) := by
  obtain ⟨⟨A, hA⟩, rfl⟩ := (postadd_in_ok_iff sa a).1 ha
  obtain ⟨⟨B, hB⟩, rfl⟩ := (postadd_in_ok_iff sb b).1 hb
  have sA := (fields_ok_iff sa A).1 hA
  have sB := (fields_ok_iff sb B).1 hB
  exact ⟨A, B, sA, sB, rfl, rfl, cmp_internal_of_splits _ _ sA sB⟩

/-! ## The parts of a raw text -/

theorem beforeFirst_append_cons (u v : CStr) (c : Char) (h : c ∉ u) :
    beforeFirst c (u ++ c :: v) = u := by
  induction u with
  | nil => simp [beforeFirst]
  | cons x xs ih =>
    have hx : x ≠ c := fun e => h (by simp [e])
    have hxs : c ∉ xs := fun e => h (by simp [e])
    have := ih hxs
    have hb : (x != c) = true := by simpa using hx
    simp only [beforeFirst] at this ⊢
    simp only [List.cons_append, List.takeWhile_cons, hb, if_true, this]

theorem afterFirst_append_cons (u v : CStr) (c : Char) (h : c ∉ u) :
    afterFirst c (u ++ c :: v) = v := by
  induction u with
  | nil => simp [afterFirst]
  | cons x xs ih =>
    have hx : x ≠ c := fun e => h (by simp [e])
    have hxs : c ∉ xs := fun e => h (by simp [e])
    have := ih hxs
    have hb : (x != c) = true := by simpa using hx
    simp only [afterFirst] at this ⊢
    simp only [List.cons_append, List.dropWhile_cons, hb, if_true, this]

theorem words_letter_or_space {s : CStr} (h : Words s) : ∀ c ∈ s, isLetter c ∨ c = ' ' := by
  obtain ⟨w, ws, hw, hws, rfl⟩ := h
  rw [intercalate_space]
  intro c hc
  rcases List.mem_append.1 hc with hc | hc
  · exact Or.inl (hw.2 c hc)
  · obtain ⟨p, hp, hcp⟩ := List.mem_flatten.1 hc
    obtain ⟨v, hv, rfl⟩ := List.mem_map.1 hp
    rcases List.mem_cons.1 hcp with rfl | hcv
    · exact Or.inr rfl
    · exact Or.inl ((hws v hv).2 c hcv)

theorem not_digit_of_letter_or_space {c : Char} (h : isLetter c ∨ c = ' ') : ¬ isDigit c := by
  rcases h with h | rfl
  · unfold isLetter at h; unfold isDigit; omega
  · decide

/-- The parts of an accepted text are the fields of the parser. -/
theorem parts_of_splits {s : CStr} {F : Fields} (h : Splits s F) :
    afterUnit s = F.street ++ ',' :: (F.suburb ++ ',' :: F.state_postcode) ∧
    (∀ u, F.unit = some u → beforeFirst '/' s = u) ∧
    ('/' ∈ s → F.unit ≠ none) ∧
    streetPart s = F.street ∧ suburbPart s = F.suburb ∧
    statePostcodePart s = F.state_postcode := by
  obtain ⟨hs, hu, c1, c2, _, _, _⟩ := h
  have hrest : afterUnit s = F.street ++ ',' :: (F.suburb ++ ',' :: F.state_postcode) ∧
      (∀ u, F.unit = some u → beforeFirst '/' s = u) ∧ ('/' ∈ s → F.unit ≠ none) := by
    cases hF : F.unit with
    | none =>
      rw [hF] at hu hs
      refine ⟨?_, fun u hu' => by simp at hu', fun hm => absurd hm hu⟩
      simp only [afterUnit, hu, if_false]
      simpa [unitPrefix] using hs
    | some u =>
      rw [hF] at hu hs
      simp only [unitPrefix, List.append_assoc, List.singleton_append] at hs
      have hm : '/' ∈ s := by rw [hs]; simp
      refine ⟨?_, ?_, fun _ => by simp⟩
      · simp only [afterUnit, hm, if_true]
        rw [hs]
        exact afterFirst_append_cons _ _ _ hu.1
      · intro v hv
        simp only [Option.some.injEq] at hv
        subst hv
        rw [hs]
        exact beforeFirst_append_cons _ _ _ hu.1
  refine ⟨hrest.1, hrest.2.1, hrest.2.2, ?_, ?_, ?_⟩
  · rw [streetPart, hrest.1, beforeFirst_append_cons _ _ _ c1]
  · rw [suburbPart, hrest.1, afterFirst_append_cons _ _ _ c1, beforeFirst_append_cons _ _ _ c2]
  · rw [statePostcodePart, hrest.1, afterFirst_append_cons _ _ _ c1,
      afterFirst_append_cons _ _ _ c2]

/-- An accepted text has none of the malformations. -/
theorem not_malformed_of_splits {s : CStr} {F : Fields} (h : Splits s F) : ¬ Malformed s := by
  obtain ⟨hrest, hunit, hslash, hst, hsu, hsp⟩ := parts_of_splits h
  obtain ⟨_, hu, _, _, h1, h2, h3⟩ := h
  obtain ⟨num, st, hnum, _, e1⟩ := (street_lang_iff _).1 h1
  obtain ⟨sub, hsub, e2⟩ := (suburb_lang_iff _).1 h2
  obtain ⟨a, b, pc, ha, hb, hlen, hpc, e3⟩ := (state_postcode_lang_iff _).1 h3
  have hstate : statePart s = [a, b] := by
    rw [statePart, hsp, e3]
    exact beforeFirst_append_cons [a, b] pc ' '
      (by simp [(isUpper_ne_space ha).symm, (isUpper_ne_space hb).symm])
  have hpost : postcodePart s = pc := by
    rw [postcodePart, hsp, e3]
    exact afterFirst_append_cons [a, b] pc ' '
      (by simp [(isUpper_ne_space ha).symm, (isUpper_ne_space hb).symm])
  rintro (m | ⟨hm, m⟩ | m | ⟨c, hc, hd⟩ | m | m)
  · rw [hrest] at m
    simp [List.count_append, List.count_cons] at m
    omega
  · cases hF : F.unit with
    | none => exact hslash hm hF
    | some u =>
      rw [hF] at hu
      obtain ⟨l, ds, hl, hds, e⟩ := (unit_lang_iff u).1 hu.2
      exact m ⟨l, ds, hl, hds, by rw [hunit u hF, e]⟩
  · rw [hst, e1] at m
    obtain ⟨hne, hall⟩ := hnum
    cases num with
    | nil => exact hne rfl
    | cons d ds => exact m ⟨d, _, hall d (by simp), rfl⟩
  · rw [hsu, e2] at hc
    rcases List.mem_cons.1 hc with rfl | hc
    · revert hd; decide
    · exact not_digit_of_letter_or_space (words_letter_or_space hsub c hc) hd
  · rw [hstate] at m
    apply m
    refine ⟨rfl, ?_⟩
    intro c hc
    simp only [List.mem_cons, List.mem_singleton, List.not_mem_nil, or_false] at hc
    rcases hc with rfl | rfl <;> assumption
  · rw [hpost] at m
    exact m ⟨hlen, hpc⟩

/-! ## Letter case and the comparison -/

theorem not_isLetter_slash : ¬ isLetter '/' := by decide

theorem not_isLetter_comma : ¬ isLetter ',' := by decide

theorem not_isLetter_space : ¬ isLetter ' ' := by decide

theorem cmpUnitSplit_map_tolower (s : CStr) :
    cmpUnitSplit (s.map tolower) =
      ((cmpUnitSplit s).1.map (List.map tolower), (cmpUnitSplit s).2.map tolower) := by
  unfold cmpUnitSplit
  rw [strchr_map_tolower s '/' not_isLetter_slash]
  cases strchr s '/' with
  | none => rfl
  | some i => simp [List.map_take, List.map_drop]

theorem splitSkip2_map_tolower (s : CStr) (d : Char) (hd : ¬ isLetter d) :
    splitSkip2 (s.map tolower) d =
      (splitSkip2 s d).map (fun p => (p.1.map tolower, p.2.map tolower)) := by
  unfold splitSkip2
  rw [strchr_map_tolower s d hd]
  cases strchr s d with
  | none => rfl
  | some i =>
    by_cases hl : i + 2 ≤ s.length
    · simp [hl, List.map_take, List.map_drop]
    · simp [hl]

theorem splitState_map_tolower (s : CStr) :
    splitState (s.map tolower) = (splitState s).map (List.map tolower) := by
  unfold splitState
  rw [strchr_map_tolower s ' ' not_isLetter_space]
  cases strchr s ' ' with
  | none => rfl
  | some i => simp [List.map_take]

theorem cmpFields_map_tolower (s : CStr) :
    cmpFields (s.map tolower) =
      (cmpFields s).map (fun f => (f.1.map (List.map tolower), f.2.1.map tolower,
        f.2.2.1.map tolower, f.2.2.2.map tolower)) := by
  unfold cmpFields
  rw [cmpUnitSplit_map_tolower]
  simp only [splitSkip2_map_tolower _ ',' not_isLetter_comma]
  cases splitSkip2 (cmpUnitSplit s).2 ',' with
  | none => rfl
  | some p =>
    simp only [Option.map_some', splitSkip2_map_tolower _ ',' not_isLetter_comma]
    cases splitSkip2 p.2 ',' with
    | none => rfl
    | some q =>
      simp only [Option.map_some', splitState_map_tolower]
      cases splitState q.2 with
      | none => rfl
      | some st => rfl

/-- When the result is 0 the four compared fields agree up to case. -/
theorem cmpReference_eq_zero_iff (A B : Fields) :
    cmpReference A B = 0 ↔
      ciEq A.state B.state ∧ ciEq A.suburbName B.suburbName ∧ ciEq A.street B.street ∧
      ((A.unit = none ∧ B.unit = none) ∨
        ∃ u v, A.unit = some u ∧ B.unit = some v ∧ strcasecmp u v = 0) := by
  unfold cmpReference
  by_cases p1 : ciEq A.state B.state
  · by_cases p2 : ciEq A.suburbName B.suburbName
    · by_cases p3 : ciEq A.street B.street
      · simp only [p1, p2, p3, not_true_eq_false, if_false, true_and]
        cases A.unit with
        | none => cases B.unit <;> simp
        | some u =>
          cases B.unit with
          | none => simp
          | some v =>
            simp only [Option.some.injEq, false_and, exists_and_left, exists_eq_left',
              false_or]
            constructor
            · intro h
              split at h
              · simp at h
              · split at h
                · simp at h
                · omega
            · intro h
              have h0 : strcasecmp u v = 0 := by
                rcases h with ⟨h, _⟩ | h
                · simp at h
                · exact h
              simp [h0]
      · simp only [p1, p2, p3, not_true_eq_false, not_false_eq_true, if_false, if_true,
          true_and, false_and, iff_false]
        split <;> decide
    · simp only [p1, p2, not_true_eq_false, not_false_eq_true, if_false, if_true,
        true_and, false_and, iff_false]
      split <;> decide
  · simp only [p1, not_false_eq_true, if_true, false_and, iff_false]
    split <;> decide

/-- An accepted text without its last four characters, from the fields. -/
theorem text_without_postcode {s : CStr} {F : Fields} (h : Splits s F) :
    s.take (s.length - 4) =
      unitPrefix F.unit ++ (F.street ++ ',' :: ' ' :: (F.suburbName ++
        ',' :: ' ' :: (F.state ++ [' ']))) := by
  obtain ⟨hs, _, _, _, _, h2, h3⟩ := h
  obtain ⟨sub, _, e2⟩ := (suburb_lang_iff _).1 h2
  obtain ⟨a, b, pc, _, _, hlen, _, e3⟩ := (state_postcode_lang_iff _).1 h3
  have e : s = (unitPrefix F.unit ++ (F.street ++ ',' :: ' ' :: (sub ++
      ',' :: ' ' :: ([a, b] ++ [' '])))) ++ pc := by
    rw [hs, e2, e3]; simp
  have hl : s.length - 4 = (unitPrefix F.unit ++ (F.street ++ ',' :: ' ' :: (sub ++
      ',' :: ' ' :: ([a, b] ++ [' '])))).length := by
    rw [e, List.length_append, hlen]; omega
  rw [hl]
  conv_lhs => rw [e]
  rw [List.take_left]
  simp [Fields.suburbName, Fields.state, e2, e3]

theorem ciEq_unitPrefix {A B : Fields}
    (hu : (A.unit = none ∧ B.unit = none) ∨
      ∃ u v, A.unit = some u ∧ B.unit = some v ∧ u.map tolower = v.map tolower) :
    (unitPrefix A.unit).map tolower = (unitPrefix B.unit).map tolower := by
  rcases hu with ⟨h1, h2⟩ | ⟨u, v, h1, h2, h⟩
  · rw [h1, h2]
  · rw [h1, h2]
    simp [unitPrefix, h]

/-! ## Input and output -/

/-- C1: the step-by-step parser `postadd_in` accepts a raw string exactly when
the whole string has the form `[unit/]street, suburb, STATE POSTCODE` of
`AddressForm`. -/
theorem postadd_in_accepts_iff_addressForm (s : CStr) :
    (∃ a, postadd_in s = .ok a) ↔ AddressForm s := by
  rw [accepted_iff_splits]
  exact ⟨fun ⟨_, hF⟩ => splits_addressForm hF, addressForm_splits⟩

/-- C2: round trip. For every raw string `s` that `postadd_in` accepts,
`postadd_out` of the stored value is `s` itself, and `postadd_in` accepts that
output again, giving the same stored value. -/
theorem postadd_out_postadd_in (s : CStr) (a : postaddress) (h : postadd_in s = .ok a) :
    postadd_out a = s ∧ postadd_in (postadd_out a) = .ok a := by
  obtain ⟨_, rfl⟩ := (postadd_in_ok_iff s a).1 h
  exact ⟨rfl, h⟩

/-- Instance of C2 at an address with a unit, mixed case and several words. -/
theorem postadd_out_postadd_in_witness :
    postadd_out ⟨42, "b7/12 smith STREET, New Town, VI 3000".toList⟩ =
        "b7/12 smith STREET, New Town, VI 3000".toList ∧
      postadd_in (postadd_out ⟨42, "b7/12 smith STREET, New Town, VI 3000".toList⟩) =
        .ok ⟨42, "b7/12 smith STREET, New Town, VI 3000".toList⟩ :=
  postadd_out_postadd_in "b7/12 smith STREET, New Town, VI 3000".toList
    ⟨42, "b7/12 smith STREET, New Town, VI 3000".toList⟩ (by rfl)

/-! ## The comparison and its operators -/

/-- C3: for accepted addresses `a`, `b` with parsed fields `A`, `B`, the result
of `postaddress_abs_cmp_internal` is the four-level reference `cmpReference`
(state, then suburb, both giving 2 or -2; then street, then unit, giving 1 or
-1; else 0).  The example of the claim is the second part: on the texts
`1 A St, X, VIC 3000` and `2 B St, X, VIC 3000` the comparison gives -1. -/
theorem cmp_internal_eq_reference (sa sb : CStr) (a b : postaddress) (A B : Fields)
    (ha : postadd_in sa = .ok a) (hb : postadd_in sb = .ok b)
    (hA : postadd_in_fields sa = .ok A) (hB : postadd_in_fields sb = .ok B) :
    postaddress_abs_cmp_internal a b = some (cmpReference A B) ∧
    postaddress_abs_cmp_internal ⟨24, "1 A St, X, VIC 3000".toList⟩
      ⟨24, "2 B St, X, VIC 3000".toList⟩ = some (-1) := by
  obtain ⟨_, rfl⟩ := (postadd_in_ok_iff sa a).1 ha
  obtain ⟨_, rfl⟩ := (postadd_in_ok_iff sb b).1 hb
  exact ⟨cmp_internal_of_splits _ _ ((fields_ok_iff sa A).1 hA) ((fields_ok_iff sb B).1 hB),
    by decide⟩

/-- Instance of C3: same state, suburb and street up to case, only the first
address has a unit, so the first is greater by 1. -/
theorem cmp_internal_eq_reference_witness :
    postaddress_abs_cmp_internal ⟨26, "B1/1 A St, X, VI 3000".toList⟩
        ⟨23, "1 a st, x, VI 3001".toList⟩ =
      some (cmpReference ⟨some "B1".toList, "1 A St".toList, " X".toList, " VI 3000".toList⟩
        ⟨none, "1 a st".toList, " x".toList, " VI 3001".toList⟩) ∧
    cmpReference ⟨some "B1".toList, "1 A St".toList, " X".toList, " VI 3000".toList⟩
        ⟨none, "1 a st".toList, " x".toList, " VI 3001".toList⟩ = 1 :=
  ⟨(cmp_internal_eq_reference "B1/1 A St, X, VI 3000".toList "1 a st, x, VI 3001".toList
      ⟨26, "B1/1 A St, X, VI 3000".toList⟩ ⟨23, "1 a st, x, VI 3001".toList⟩
      ⟨some "B1".toList, "1 A St".toList, " X".toList, " VI 3000".toList⟩
      ⟨none, "1 a st".toList, " x".toList, " VI 3001".toList⟩
      (by rfl) (by rfl) (by rfl) (by rfl)).1, by decide⟩

/-- C4: tilde coarsening. For accepted addresses `a`, `b` with parsed fields
`A`, `B`, `postaddress_abs_ti a b` is true exactly when the states and the
suburbs are equal ignoring case, and `postaddress_abs_nt a b` is its negation.
The example of the claim is the last part. -/
theorem tilde_iff_state_suburb (sa sb : CStr) (a b : postaddress) (A B : Fields)
    (ha : postadd_in sa = .ok a) (hb : postadd_in sb = .ok b)
    (hA : postadd_in_fields sa = .ok A) (hB : postadd_in_fields sb = .ok B) :
    postaddress_abs_ti a b =
      some (decide (ciEq A.state B.state ∧ ciEq A.suburbName B.suburbName)) ∧
    postaddress_abs_nt a b =
      some (!decide (ciEq A.state B.state ∧ ciEq A.suburbName B.suburbName)) ∧
    postaddress_abs_ti ⟨34, "1 A St, Springfield, VIC 3000".toList⟩
      ⟨35, "99 Z Rd, Springfield, VIC 3111".toList⟩ = some true := by
  obtain ⟨_, rfl⟩ := (postadd_in_ok_iff sa a).1 ha
  obtain ⟨_, rfl⟩ := (postadd_in_ok_iff sb b).1 hb
  have h := cmp_internal_of_splits (sa.length + 1 + VARHDRSZ) (sb.length + 1 + VARHDRSZ)
    ((fields_ok_iff sa A).1 hA) ((fields_ok_iff sb B).1 hB)
  have hl := cmpReference_locality A B
  refine ⟨?_, ?_, by decide⟩
  · simp only [postaddress_abs_ti, h, Option.some_bind, Option.map_some', Option.some.injEq]
    by_cases p : ciEq A.state B.state ∧ ciEq A.suburbName B.suburbName
    · have := not_not.2 p
      rw [← hl] at this
      simp [this, p]
    · have := hl.2 p
      simp [this, p]
  · simp only [postaddress_abs_nt, h, Option.some_bind, Option.map_some', Option.some.injEq]
    by_cases p : ciEq A.state B.state ∧ ciEq A.suburbName B.suburbName
    · have := not_not.2 p
      rw [← hl] at this
      simp [this, p]
    · have := hl.2 p
      simp [this, p]

/-- Instance of C4: same state and suburb up to case, different unit, street
and postcode. -/
theorem tilde_iff_state_suburb_witness :
    postaddress_abs_ti ⟨33, "1 A St, Springfield, VI 3000".toList⟩
        ⟨37, "C4/99 Z Rd, springFIELD, VI 3111".toList⟩ = some true ∧
    postaddress_abs_nt ⟨33, "1 A St, Springfield, VI 3000".toList⟩
        ⟨37, "C4/99 Z Rd, springFIELD, VI 3111".toList⟩ = some false :=
  have h := tilde_iff_state_suburb "1 A St, Springfield, VI 3000".toList
    "C4/99 Z Rd, springFIELD, VI 3111".toList
    ⟨33, "1 A St, Springfield, VI 3000".toList⟩
    ⟨37, "C4/99 Z Rd, springFIELD, VI 3111".toList⟩
    ⟨none, "1 A St".toList, " Springfield".toList, " VI 3000".toList⟩
    ⟨some "C4".toList, "99 Z Rd".toList, " springFIELD".toList, " VI 3111".toList⟩
    (by rfl) (by rfl) (by rfl) (by rfl)
  ⟨h.1.trans (by decide), h.2.1.trans (by decide)⟩

/-- C5: grammar rejection. `postadd_in` reports the validation error, and
stores nothing, for every raw string with one of the malformations of
`Malformed`: fewer than two commas after the unit separator, a part before
the first `/` that is not one letter and digits, a street part that does not
start with a digit, a digit in the suburb part, a state that is not two
uppercase letters, a postcode that is not four digits. -/
theorem postadd_in_rejects_malformed (s : CStr) (h : Malformed s) :
    postadd_in s = .error (invalid_postadd_msg s) := by
  rcases postadd_in_cases s with ⟨F, hF, _⟩ | ⟨_, he⟩
  · exact absurd h (not_malformed_of_splits ((fields_ok_iff s F).1 hF))
  · exact he

/-- Instances of C5: one comma only; a digit in the suburb; a state of three
letters; a postcode of three digits. -/
theorem postadd_in_rejects_malformed_witness :
    postadd_in "12 Smith Street, VI 3000".toList =
      .error (invalid_postadd_msg "12 Smith Street, VI 3000".toList) ∧
    postadd_in "12 Smith Street, Area 51, VI 3000".toList =
      .error (invalid_postadd_msg "12 Smith Street, Area 51, VI 3000".toList) ∧
    postadd_in "12 Smith Street, Springfield, VIC 3000".toList =
      .error (invalid_postadd_msg "12 Smith Street, Springfield, VIC 3000".toList) ∧
    postadd_in "12 Smith Street, Springfield, VI 300".toList =
      .error (invalid_postadd_msg "12 Smith Street, Springfield, VI 300".toList) :=
  ⟨postadd_in_rejects_malformed "12 Smith Street, VI 3000".toList (Or.inl (by decide)),
   postadd_in_rejects_malformed "12 Smith Street, Area 51, VI 3000".toList
    (Or.inr (Or.inr (Or.inr (Or.inl (by decide))))),
   postadd_in_rejects_malformed "12 Smith Street, Springfield, VIC 3000".toList
    (Or.inr (Or.inr (Or.inr (Or.inr (Or.inl (by decide)))))),
   postadd_in_rejects_malformed "12 Smith Street, Springfield, VI 300".toList
    (Or.inr (Or.inr (Or.inr (Or.inr (Or.inr (by decide))))))⟩

/-- C6: antisymmetry. For accepted addresses `a`, `b` the comparison has a
result `r`, `postaddress_abs_cmp b a` is `-r`, `lt a b` and `gt b a` are both
`r < 0`, and `eq a b` and `eq b a` are both `r = 0`. -/
theorem cmp_antisymm (sa sb : CStr) (a b : postaddress)
    (ha : postadd_in sa = .ok a) (hb : postadd_in sb = .ok b) :
    ∃ r : Int, postaddress_abs_cmp a b = some r ∧ postaddress_abs_cmp b a = some (-r) ∧
      postaddress_abs_lt a b = some (decide (r < 0)) ∧
      postaddress_abs_gt b a = some (decide (r < 0)) ∧
      postaddress_abs_eq a b = some (decide (r = 0)) ∧
      postaddress_abs_eq b a = some (decide (r = 0)) := by
  obtain ⟨A, B, _, _, _, _, h⟩ := cmp_internal_accepted ha hb
  have hs := cmp_internal_swap a b
  rw [h] at hs
  simp only [Option.map_some'] at hs
  refine ⟨cmpReference A B, h, hs, ?_, ?_, ?_, ?_⟩
  · simp [postaddress_abs_lt, h]
  · simp [postaddress_abs_gt, hs]
  · simp [postaddress_abs_eq, h]
  · simp [postaddress_abs_eq, hs]

/-- Instance of C6 at two addresses that differ in the street. -/
theorem cmp_antisymm_witness :
    ∃ r : Int,
      postaddress_abs_cmp ⟨23, "1 A St, X, VI 3000".toList⟩ ⟨23, "2 B St, X, VI 3000".toList⟩ =
        some r ∧
      postaddress_abs_cmp ⟨23, "2 B St, X, VI 3000".toList⟩ ⟨23, "1 A St, X, VI 3000".toList⟩ =
        some (-r) ∧
      postaddress_abs_lt ⟨23, "1 A St, X, VI 3000".toList⟩ ⟨23, "2 B St, X, VI 3000".toList⟩ =
        some (decide (r < 0)) ∧
      postaddress_abs_gt ⟨23, "2 B St, X, VI 3000".toList⟩ ⟨23, "1 A St, X, VI 3000".toList⟩ =
        some (decide (r < 0)) ∧
      postaddress_abs_eq ⟨23, "1 A St, X, VI 3000".toList⟩ ⟨23, "2 B St, X, VI 3000".toList⟩ =
        some (decide (r = 0)) ∧
      postaddress_abs_eq ⟨23, "2 B St, X, VI 3000".toList⟩ ⟨23, "1 A St, X, VI 3000".toList⟩ =
        some (decide (r = 0)) :=
  cmp_antisymm "1 A St, X, VI 3000".toList "2 B St, X, VI 3000".toList
    ⟨23, "1 A St, X, VI 3000".toList⟩ ⟨23, "2 B St, X, VI 3000".toList⟩ (by rfl) (by rfl)

/-- C7: ordering totality modulo ties. For accepted addresses `a`, `b` the
six operators have results, exactly one of `lt`, `eq`, `gt` is true (a result
of 2 makes `gt` true and -2 makes `lt` true), `le` is `lt` or `eq`, `ge` is
`gt` or `eq`, and `ne` is not `eq`. -/
theorem lt_eq_gt_exactly_one (sa sb : CStr) (a b : postaddress)
    (ha : postadd_in sa = .ok a) (hb : postadd_in sb = .ok b) :
    ∃ l e g : Bool,
      postaddress_abs_lt a b = some l ∧ postaddress_abs_eq a b = some e ∧
      postaddress_abs_gt a b = some g ∧
      ((l = true ∧ e = false ∧ g = false) ∨ (l = false ∧ e = true ∧ g = false) ∨
        (l = false ∧ e = false ∧ g = true)) ∧
      (postaddress_abs_cmp a b = some 2 → g = true) ∧
      (postaddress_abs_cmp a b = some (-2) → l = true) ∧
      postaddress_abs_le a b = some (l || e) ∧
      postaddress_abs_ge a b = some (g || e) ∧
      postaddress_abs_ne a b = some (!e) := by
  obtain ⟨A, B, _, _, _, _, h⟩ := cmp_internal_accepted ha hb
  refine ⟨decide (cmpReference A B < 0), decide (cmpReference A B = 0),
    decide (cmpReference A B > 0), by simp [postaddress_abs_lt, h],
    by simp [postaddress_abs_eq, h], by simp [postaddress_abs_gt, h], ?_, ?_, ?_, ?_, ?_, ?_⟩
  · rcases lt_trichotomy (cmpReference A B) 0 with q | q | q
    · left; simp only [decide_eq_true_eq, decide_eq_false_iff_not]; omega
    · right; left; simp only [decide_eq_true_eq, decide_eq_false_iff_not]; omega
    · right; right; simp only [decide_eq_true_eq, decide_eq_false_iff_not]; omega
  · intro h2
    rw [postaddress_abs_cmp, h] at h2
    simp only [Option.some.injEq] at h2
    simp [h2]
  · intro h2
    rw [postaddress_abs_cmp, h] at h2
    simp only [Option.some.injEq] at h2
    simp [h2]
  · simp only [postaddress_abs_le, h, Option.map_some', Option.some.injEq]
    rw [Bool.eq_iff_iff]
    simp only [Bool.or_eq_true, decide_eq_true_eq]
    omega
  · simp only [postaddress_abs_ge, h, Option.map_some', Option.some.injEq]
    rw [Bool.eq_iff_iff]
    simp only [Bool.or_eq_true, decide_eq_true_eq]
    omega
  · simp [postaddress_abs_ne, h]

/-- Instance of C7 at two addresses of different states, where the result is
-2. -/
theorem lt_eq_gt_exactly_one_witness :
    ∃ l e g : Bool,
      postaddress_abs_lt ⟨23, "1 A St, X, NS 3000".toList⟩ ⟨23, "1 A St, X, VI 3000".toList⟩ =
        some l ∧
      postaddress_abs_eq ⟨23, "1 A St, X, NS 3000".toList⟩ ⟨23, "1 A St, X, VI 3000".toList⟩ =
        some e ∧
      postaddress_abs_gt ⟨23, "1 A St, X, NS 3000".toList⟩ ⟨23, "1 A St, X, VI 3000".toList⟩ =
        some g ∧
      ((l = true ∧ e = false ∧ g = false) ∨ (l = false ∧ e = true ∧ g = false) ∨
        (l = false ∧ e = false ∧ g = true)) ∧
      (postaddress_abs_cmp ⟨23, "1 A St, X, NS 3000".toList⟩
        ⟨23, "1 A St, X, VI 3000".toList⟩ = some 2 → g = true) ∧
      (postaddress_abs_cmp ⟨23, "1 A St, X, NS 3000".toList⟩
        ⟨23, "1 A St, X, VI 3000".toList⟩ = some (-2) → l = true) ∧
      postaddress_abs_le ⟨23, "1 A St, X, NS 3000".toList⟩ ⟨23, "1 A St, X, VI 3000".toList⟩ =
        some (l || e) ∧
      postaddress_abs_ge ⟨23, "1 A St, X, NS 3000".toList⟩ ⟨23, "1 A St, X, VI 3000".toList⟩ =
        some (g || e) ∧
      postaddress_abs_ne ⟨23, "1 A St, X, NS 3000".toList⟩ ⟨23, "1 A St, X, VI 3000".toList⟩ =
        some (!e) :=
  lt_eq_gt_exactly_one "1 A St, X, NS 3000".toList "1 A St, X, VI 3000".toList
    ⟨23, "1 A St, X, NS 3000".toList⟩ ⟨23, "1 A St, X, VI 3000".toList⟩ (by rfl) (by rfl)

/-! ## Equality, hashing and letter case -/

/-- C8: hash/equality consistency fails in the code. The two accepted
addresses `1 A St, X, VI 3000` and `1 a st, x, VI 3000` are equal for
`postaddress_abs_eq`, yet `postaddress_hash` applies `hash_any` to two
different texts: the hashes are equal only when `hash_any` collides on them,
and a hash that tells the two texts apart gives different values. -/
theorem eq_true_hash_over_different_bytes :
    postadd_in "1 A St, X, VI 3000".toList = .ok ⟨23, "1 A St, X, VI 3000".toList⟩ ∧
    postadd_in "1 a st, x, VI 3000".toList = .ok ⟨23, "1 a st, x, VI 3000".toList⟩ ∧
    postaddress_abs_eq ⟨23, "1 A St, X, VI 3000".toList⟩ ⟨23, "1 a st, x, VI 3000".toList⟩ =
      some true ∧
    "1 A St, X, VI 3000".toList ≠ "1 a st, x, VI 3000".toList ∧
    (∀ hash_any : CStr → Nat,
      postaddress_hash hash_any ⟨23, "1 A St, X, VI 3000".toList⟩ =
        postaddress_hash hash_any ⟨23, "1 a st, x, VI 3000".toList⟩ ↔
      hash_any "1 A St, X, VI 3000".toList % 2 ^ 32 =
        hash_any "1 a st, x, VI 3000".toList % 2 ^ 32) ∧
    ∃ hash_any : CStr → Nat,
      postaddress_hash hash_any ⟨23, "1 A St, X, VI 3000".toList⟩ ≠
        postaddress_hash hash_any ⟨23, "1 a st, x, VI 3000".toList⟩ := by
  refine ⟨by rfl, by rfl, by decide, by decide, ?_, ?_⟩
  · intro hash_any
    simp only [postaddress_hash]
    have h1 := Nat.mod_lt (hash_any "1 A St, X, VI 3000".toList) (by decide : 2 ^ 32 > 0)
    have h2 := Nat.mod_lt (hash_any "1 a st, x, VI 3000".toList) (by decide : 2 ^ 32 > 0)
    constructor
    · intro h
      split at h <;> split at h <;> omega
    · intro h
      rw [h]
  · exact ⟨fun s => (s.map Char.toNat).sum, by decide⟩

/-- C9, as the claim states it, fails: the accepted addresses
`1 A St, X, VI 3000` and `1 A St, X, VI 3001` are equal for
`postaddress_abs_eq` and their texts are not equal ignoring letter case. -/
theorem eq_true_texts_differ_in_postcode :
    postadd_in "1 A St, X, VI 3000".toList = .ok ⟨23, "1 A St, X, VI 3000".toList⟩ ∧
    postadd_in "1 A St, X, VI 3001".toList = .ok ⟨23, "1 A St, X, VI 3001".toList⟩ ∧
    postaddress_abs_eq ⟨23, "1 A St, X, VI 3000".toList⟩ ⟨23, "1 A St, X, VI 3001".toList⟩ =
      some true ∧
    ¬ ciEq "1 A St, X, VI 3000".toList "1 A St, X, VI 3001".toList :=
  ⟨by rfl, by rfl, by decide, by decide⟩

/-- C9, amended: for accepted addresses `a`, `b`, if `postaddress_abs_eq a b`
is true then the texts of `a` and `b` without their last four characters (the
postcode digits) are equal when ASCII letter case is ignored. -/
theorem eq_true_imp_ciEq_without_postcode (sa sb : CStr) (a b : postaddress)
    (ha : postadd_in sa = .ok a) (hb : postadd_in sb = .ok b)
    (h : postaddress_abs_eq a b = some true) :
    ciEq (a.data.take (a.data.length - 4)) (b.data.take (b.data.length - 4)) := by
  obtain ⟨A, B, sA, sB, rfl, rfl, hc⟩ := cmp_internal_accepted ha hb
  simp only [postaddress_abs_eq, hc, Option.map_some', Option.some.injEq,
    decide_eq_true_eq] at h
  obtain ⟨e1, e2, e3, hu⟩ := (cmpReference_eq_zero_iff A B).1 h
  obtain ⟨_, _, _, nA⟩ := splits_no_nul sA
  obtain ⟨_, _, _, nB⟩ := splits_no_nul sB
  have hu' : (A.unit = none ∧ B.unit = none) ∨
      ∃ u v, A.unit = some u ∧ B.unit = some v ∧ u.map tolower = v.map tolower := by
    rcases hu with hu | ⟨u, v, h1, h2, h0⟩
    · exact Or.inl hu
    · exact Or.inr ⟨u, v, h1, h2,
        map_eq_of_strcasecmp_eq_zero u v (nA u h1) (nB v h2) h0⟩
  have hp := ciEq_unitPrefix hu'
  unfold ciEq at e1 e2 e3 ⊢
  rw [text_without_postcode sA, text_without_postcode sB]
  simp only [List.map_append, List.map_cons, hp, e1, e2, e3]

/-- Instance of amended C9: two addresses equal up to case and postcode. -/
theorem eq_true_imp_ciEq_without_postcode_witness :
    ciEq ("b7/1 A St, X, VI 3000".toList.take ("b7/1 A St, X, VI 3000".toList.length - 4))
      ("B7/1 a ST, x, VI 3999".toList.take ("B7/1 a ST, x, VI 3999".toList.length - 4)) :=
  eq_true_imp_ciEq_without_postcode "b7/1 A St, X, VI 3000".toList "B7/1 a ST, x, VI 3999".toList
    ⟨26, "b7/1 A St, X, VI 3000".toList⟩ ⟨26, "B7/1 a ST, x, VI 3999".toList⟩
    (by rfl) (by rfl) (by decide)

/-- C10: equality is case-insensitive. For accepted addresses `a`, `b` whose
texts are equal when ASCII letter case is ignored, `postaddress_abs_cmp a b`
is 0 and `postaddress_abs_eq a b` is true. -/
theorem cmp_zero_of_ciEq (sa sb : CStr) (a b : postaddress)
    (ha : postadd_in sa = .ok a) (hb : postadd_in sb = .ok b) (h : ciEq sa sb) :
    postaddress_abs_cmp a b = some 0 ∧ postaddress_abs_eq a b = some true := by
  obtain ⟨A, B, sA, sB, rfl, rfl, hc⟩ := cmp_internal_accepted ha hb
  have fa := cmpFields_map_tolower a.data
  have fb := cmpFields_map_tolower b.data
  unfold ciEq at h
  rw [h, fb, cmpFields_of_splits sA, cmpFields_of_splits sB] at fa
  simp only [Option.map_some', Option.some.injEq, Prod.mk.injEq] at fa
  obtain ⟨hu, hst, hsu, hs⟩ := fa
  have hz : cmpReference A B = 0 := by
    rw [cmpReference_eq_zero_iff]
    refine ⟨hs.symm, hsu.symm, hst.symm, ?_⟩
    cases hA : A.unit with
    | none =>
      cases hB : B.unit with
      | none => exact Or.inl ⟨rfl, rfl⟩
      | some v => rw [hA, hB] at hu; simp at hu
    | some u =>
      cases hB : B.unit with
      | none => rw [hA, hB] at hu; simp at hu
      | some v =>
        rw [hA, hB] at hu
        simp only [Option.map_some', Option.some.injEq] at hu
        exact Or.inr ⟨u, v, rfl, rfl, strcasecmp_eq_zero_of_map_eq u v hu.symm⟩
  rw [postaddress_abs_cmp, postaddress_abs_eq, hc, hz]
  exact ⟨rfl, rfl⟩

/-- Instance of C10: the case differs in unit, street and suburb. -/
theorem cmp_zero_of_ciEq_witness :
    postaddress_abs_cmp ⟨26, "b7/1 A St, X, VI 3000".toList⟩
        ⟨26, "B7/1 a ST, x, VI 3000".toList⟩ = some 0 ∧
      postaddress_abs_eq ⟨26, "b7/1 A St, X, VI 3000".toList⟩
        ⟨26, "B7/1 a ST, x, VI 3000".toList⟩ = some true :=
  cmp_zero_of_ciEq "b7/1 A St, X, VI 3000".toList "B7/1 a ST, x, VI 3000".toList
    ⟨26, "b7/1 A St, X, VI 3000".toList⟩ ⟨26, "B7/1 a ST, x, VI 3000".toList⟩
    (by rfl) (by rfl) (by decide)

/-! ## Tilde as an equivalence -/

theorem ti_of_splits {sa sb : CStr} {A B : Fields} (la lb : Nat)
    (ha : Splits sa A) (hb : Splits sb B) :
    postaddress_abs_ti ⟨la, sa⟩ ⟨lb, sb⟩ =
      some (decide (ciEq A.state B.state ∧ ciEq A.suburbName B.suburbName)) := by
  have h := cmp_internal_of_splits la lb ha hb
  have hl := cmpReference_locality A B
  simp only [postaddress_abs_ti, h, Option.some_bind, Option.map_some', Option.some.injEq]
  by_cases p : ciEq A.state B.state ∧ ciEq A.suburbName B.suburbName
  · have := not_not.2 p
    rw [← hl] at this
    simp [this, p]
  · have := hl.2 p
    simp [this, p]

theorem eq_of_splits {sa sb : CStr} {A B : Fields} (la lb : Nat)
    (ha : Splits sa A) (hb : Splits sb B) :
    postaddress_abs_eq ⟨la, sa⟩ ⟨lb, sb⟩ = some (decide (cmpReference A B = 0)) := by
  simp [postaddress_abs_eq, cmp_internal_of_splits la lb ha hb]

/-- An accepted address is its text with the length word of `postadd_in`,
and its text splits into parsed fields. -/
theorem accepted_splits {s : CStr} {a : postaddress} (h : postadd_in s = .ok a) :
    a = ⟨s.length + 1 + VARHDRSZ, s⟩ ∧ ∃ F, postadd_in_fields s = .ok F ∧ Splits s F := by
  obtain ⟨⟨F, hF⟩, rfl⟩ := (postadd_in_ok_iff s a).1 h
  exact ⟨rfl, F, hF, (fields_ok_iff s F).1 hF⟩

/-- C11: on accepted addresses tilde is reflexive, symmetric and transitive,
and `postaddress_abs_eq a b` true implies `postaddress_abs_ti a b` true. -/
theorem tilde_equivalence (sa sb sc : CStr) (a b c : postaddress)
    (ha : postadd_in sa = .ok a) (hb : postadd_in sb = .ok b) (hc : postadd_in sc = .ok c) :
    postaddress_abs_ti a a = some true ∧
    postaddress_abs_ti a b = postaddress_abs_ti b a ∧
    (postaddress_abs_ti a b = some true → postaddress_abs_ti b c = some true →
      postaddress_abs_ti a c = some true) ∧
    (postaddress_abs_eq a b = some true → postaddress_abs_ti a b = some true) := by
  obtain ⟨rfl, A, _, sA⟩ := accepted_splits ha
  obtain ⟨rfl, B, _, sB⟩ := accepted_splits hb
  obtain ⟨rfl, C, _, sC⟩ := accepted_splits hc
  rw [ti_of_splits _ _ sA sA, ti_of_splits _ _ sA sB, ti_of_splits _ _ sB sA,
    ti_of_splits _ _ sB sC, ti_of_splits _ _ sA sC, eq_of_splits _ _ sA sB]
  simp only [Option.some.injEq, decide_eq_true_eq, decide_eq_decide]
  unfold ciEq
  refine ⟨⟨rfl, rfl⟩, ⟨fun h => ⟨h.1.symm, h.2.symm⟩, fun h => ⟨h.1.symm, h.2.symm⟩⟩, ?_, ?_⟩
  · intro h1 h2
    exact ⟨h1.1.trans h2.1, h1.2.trans h2.2⟩
  · intro h0
    have := (cmpReference_eq_zero_iff A B).1 h0
    exact ⟨this.1, this.2.1⟩

/-- Instance of C11: three addresses of one suburb and state, in different
case, with different units, streets and postcodes; the first two are equal. -/
theorem tilde_equivalence_witness :
    postaddress_abs_ti ⟨24, "1 A St, Xy, VI 3000".toList⟩ ⟨24, "1 A St, Xy, VI 3000".toList⟩ =
      some true ∧
    postaddress_abs_ti ⟨24, "1 A St, Xy, VI 3000".toList⟩ ⟨24, "1 a st, xY, VI 3001".toList⟩ =
      postaddress_abs_ti ⟨24, "1 a st, xY, VI 3001".toList⟩ ⟨24, "1 A St, Xy, VI 3000".toList⟩ ∧
    postaddress_abs_ti ⟨24, "1 A St, Xy, VI 3000".toList⟩
      ⟨28, "C4/99 Z Rd, XY, VI 3111".toList⟩ = some true ∧
    postaddress_abs_ti ⟨24, "1 A St, Xy, VI 3000".toList⟩ ⟨24, "1 a st, xY, VI 3001".toList⟩ =
      some true :=
  have h := tilde_equivalence "1 A St, Xy, VI 3000".toList "1 a st, xY, VI 3001".toList
    "C4/99 Z Rd, XY, VI 3111".toList ⟨24, "1 A St, Xy, VI 3000".toList⟩
    ⟨24, "1 a st, xY, VI 3001".toList⟩ ⟨28, "C4/99 Z Rd, XY, VI 3111".toList⟩
    (by rfl) (by rfl) (by rfl)
  ⟨h.1, h.2.1, h.2.2.1 (by decide) (by decide), h.2.2.2 (by decide)⟩

/-! ## The error message -/

/-- C12, as the claim states it, fails: the rejected text `12 Smith Street`
raises the message of `invalid_postadd_msg`, `invalid input syntax for type
PostAddress: "12 Smith Street"`, not the message `invalid input syntax for
address: "12 Smith Street"`. -/
theorem error_message_not_spec_wording :
    postadd_in "12 Smith Street".toList =
      .error "invalid input syntax for type PostAddress: \"12 Smith Street\"".toList ∧
    postadd_in "12 Smith Street".toList ≠ .error (spec_error_msg "12 Smith Street".toList) :=
  ⟨by rfl, fun h => absurd (Except.error.inj h) (by decide)⟩

/-- C12, amended: whenever `postadd_in` rejects a raw string, at whichever
rule, the one error it raises has the message
`invalid input syntax for type PostAddress: "<text>"` with the complete
original string between the quotes. -/
theorem postadd_in_error_message (s : CStr) (h : ∀ a, postadd_in s ≠ .ok a) :
    postadd_in s = .error (invalid_postadd_msg s) ∧
    (∀ e, postadd_in s = .error e → e = invalid_postadd_msg s) ∧
    invalid_postadd_msg s =
      "invalid input syntax for type PostAddress: ".toList ++ Char.ofNat 34 :: s ++
        [Char.ofNat 34] := by
  rcases postadd_in_cases s with ⟨F, _, hok⟩ | ⟨_, he⟩
  · exact absurd hok (h _)
  · refine ⟨he, ?_, rfl⟩
    intro e h'
    rw [he] at h'
    exact (Except.error.inj h').symm

/-- Instance of amended C12: a text rejected at the last rule, after both
commas were split on. -/
theorem postadd_in_error_message_witness :
    postadd_in "12 Smith Street, Springfield, VIC 3000".toList =
      .error (invalid_postadd_msg "12 Smith Street, Springfield, VIC 3000".toList) ∧
    (∀ e, postadd_in "12 Smith Street, Springfield, VIC 3000".toList = .error e →
      e = invalid_postadd_msg "12 Smith Street, Springfield, VIC 3000".toList) ∧
    invalid_postadd_msg "12 Smith Street, Springfield, VIC 3000".toList =
      "invalid input syntax for type PostAddress: ".toList ++ Char.ofNat 34 ::
        "12 Smith Street, Springfield, VIC 3000".toList ++ [Char.ofNat 34] :=
  postadd_in_error_message "12 Smith Street, Springfield, VIC 3000".toList
    (fun a h => by
      have e : postadd_in "12 Smith Street, Springfield, VIC 3000".toList =
          .error (invalid_postadd_msg "12 Smith Street, Springfield, VIC 3000".toList) := by rfl
      rw [e] at h
      exact Except.noConfusion h)

/-! ## The derived views on an accepted text -/

/-- The shapes of the four fields of an accepted text. -/
theorem splits_shapes {s : CStr} {F : Fields} (h : Splits s F) :
    ∃ (num st sub : CStr) (a b : Char) (pc : CStr),
      Digits num ∧ Words st ∧ Words sub ∧ isUpper a ∧ isUpper b ∧ pc.length = 4 ∧
      (∀ c ∈ pc, isDigit c) ∧ F.street = num ++ ' ' :: st ∧ F.suburb = ' ' :: sub ∧
      F.state_postcode = ' ' :: a :: b :: ' ' :: pc := by
  obtain ⟨_, _, _, _, h1, h2, h3⟩ := h
  obtain ⟨num, st, hnum, hst, e1⟩ := (street_lang_iff _).1 h1
  obtain ⟨sub, hsub, e2⟩ := (suburb_lang_iff _).1 h2
  obtain ⟨a, b, pc, ha, hb, hlen, hpc, e3⟩ := (state_postcode_lang_iff _).1 h3
  exact ⟨num, st, sub, a, b, pc, hnum, hst, hsub, ha, hb, hlen, hpc, e1, e2, e3⟩

/-- The last four characters of an accepted text are the postcode. -/
theorem text_postcode {s : CStr} {F : Fields} (h : Splits s F) :
    4 ≤ s.length ∧ s.drop (s.length - 4) = F.postcode ∧ F.postcode.length = 4 ∧
    (∀ c ∈ F.postcode, isDigit c) ∧
    s = s.take (s.length - 4) ++ F.postcode := by
  obtain ⟨num, st, sub, a, b, pc, _, _, _, _, _, hlen, hpc, _, _, e3⟩ := splits_shapes h
  have hs := h.1
  have hp : F.postcode = pc := by simp [Fields.postcode, e3]
  have e : s = (unitPrefix F.unit ++ (F.street ++ ',' :: (F.suburb ++
      ',' :: [' ', a, b, ' ']))) ++ pc := by
    rw [hs, e3]; simp
  have hl : s.length - 4 = (unitPrefix F.unit ++ (F.street ++ ',' :: (F.suburb ++
      ',' :: [' ', a, b, ' ']))).length := by
    rw [e, List.length_append, hlen]; omega
  have hd : s.drop (s.length - 4) = pc := by
    rw [hl]
    conv_lhs => rw [e]
    rw [List.drop_left]
  refine ⟨?_, by rw [hd, hp], by rw [hp, hlen], by rw [hp]; exact hpc, ?_⟩
  · rw [e, List.length_append, hlen]; omega
  · rw [hp, ← hd, List.take_append_drop]

theorem unit_ne_null {u : CStr} (h : Regex.Lang unitPattern u) : u ≠ "NULL".toList := by
  obtain ⟨l, ds, _, hds, rfl⟩ := (unit_lang_iff u).1 h
  intro e
  have e' : l :: ds = ['N', 'U', 'L', 'L'] := e
  simp only [List.cons.injEq] at e'
  have := hds.2 'U' (by rw [e'.2]; simp)
  revert this
  decide

theorem show_unit_eq (s : CStr) (l : Nat) :
    show_unit ⟨l, s⟩ = (cmpUnitSplit s).1.getD "NULL".toList := by
  unfold show_unit cmpUnitSplit
  cases strchr s '/' <;> rfl

/-- C13: for an accepted address with parsed fields `F`, `show_unit` returns
the unit of the parser, which is the text before the first `/`, when there is
a unit, and the text `NULL` when there is none; and it returns `NULL` only
when there is no unit. -/
theorem show_unit_spec (s : CStr) (a : postaddress) (F : Fields)
    (ha : postadd_in s = .ok a) (hF : postadd_in_fields s = .ok F) :
    (∀ u, F.unit = some u → show_unit a = u ∧ u = beforeFirst '/' s) ∧
    (F.unit = none → show_unit a = "NULL".toList) ∧
    (show_unit a = "NULL".toList ↔ F.unit = none) := by
  obtain ⟨_, rfl⟩ := (postadd_in_ok_iff s a).1 ha
  have sF := (fields_ok_iff s F).1 hF
  have hsu := show_unit_eq s (s.length + 1 + VARHDRSZ)
  rw [cmpUnitSplit_of_splits sF] at hsu
  have hb := (parts_of_splits sF).2.1
  rw [hsu]
  cases hu : F.unit with
  | none => simp
  | some u =>
    have hlang : Regex.Lang unitPattern u := by
      have := sF.2.1
      rw [hu] at this
      exact this.2
    refine ⟨?_, by simp, ?_⟩
    · intro v hv
      simp only [Option.some.injEq] at hv
      subst hv
      exact ⟨rfl, (hb u hu).symm⟩
    · simp only [Option.getD_some]
      constructor
      · intro e; exact absurd e (unit_ne_null hlang)
      · intro e; simp at e

/-- Instance of C13 at an address with a unit. -/
theorem show_unit_spec_witness :
    (∀ u, (some "A12".toList : Option CStr) = some u →
      show_unit ⟨46, "A12/12 Smith Street, Springfield, VI 3000".toList⟩ = u ∧
      u = beforeFirst '/' "A12/12 Smith Street, Springfield, VI 3000".toList) ∧
    ((some "A12".toList : Option CStr) = none →
      show_unit ⟨46, "A12/12 Smith Street, Springfield, VI 3000".toList⟩ = "NULL".toList) ∧
    (show_unit ⟨46, "A12/12 Smith Street, Springfield, VI 3000".toList⟩ = "NULL".toList ↔
      (some "A12".toList : Option CStr) = none) :=
  show_unit_spec "A12/12 Smith Street, Springfield, VI 3000".toList
    ⟨46, "A12/12 Smith Street, Springfield, VI 3000".toList⟩
    ⟨some "A12".toList, "12 Smith Street".toList, " Springfield".toList, " VI 3000".toList⟩
    (by rfl) (by rfl)

/-- C14: for an accepted address with parsed fields `F`, `show_postcode`
returns the last four characters of the text, and these are the postcode of
the parser, four digits. -/
theorem show_postcode_spec (s : CStr) (a : postaddress) (F : Fields)
    (ha : postadd_in s = .ok a) (hF : postadd_in_fields s = .ok F) :
    show_postcode a = some (a.data.drop (a.data.length - 4)) ∧
    a.data.drop (a.data.length - 4) = F.postcode ∧
    F.state_postcode = ' ' :: F.state ++ ' ' :: F.postcode ∧
    F.postcode.length = 4 ∧ ∀ c ∈ F.postcode, isDigit c := by
  obtain ⟨_, rfl⟩ := (postadd_in_ok_iff s a).1 ha
  have sF := (fields_ok_iff s F).1 hF
  obtain ⟨h4, hd, hlen, hdig, _⟩ := text_postcode sF
  obtain ⟨_, _, _, _, _, _, _, _, _, _, _, _, _, e3⟩ := splits_shapes sF
  refine ⟨?_, hd, ?_, hlen, hdig⟩
  · have : ¬ s.length < 4 := by omega
    simp [show_postcode, this]
  · simp [Fields.state, Fields.postcode, e3]

/-- Instance of C14. -/
theorem show_postcode_spec_witness :
    show_postcode ⟨46, "A12/12 Smith Street, Springfield, VI 3000".toList⟩ =
      some ("A12/12 Smith Street, Springfield, VI 3000".toList.drop
        ("A12/12 Smith Street, Springfield, VI 3000".toList.length - 4)) ∧
    "A12/12 Smith Street, Springfield, VI 3000".toList.drop
        ("A12/12 Smith Street, Springfield, VI 3000".toList.length - 4) = "3000".toList :=
  have h := show_postcode_spec "A12/12 Smith Street, Springfield, VI 3000".toList
    ⟨46, "A12/12 Smith Street, Springfield, VI 3000".toList⟩
    ⟨some "A12".toList, "12 Smith Street".toList, " Springfield".toList, " VI 3000".toList⟩
    (by rfl) (by rfl)
  ⟨h.1, h.2.1⟩

/-! ## The view `show` on an accepted text -/

theorem digit_ne_space {c : Char} (h : isDigit c) : c ≠ ' ' := by
  rintro rfl; revert h; decide

theorem letter_ne_space {c : Char} (h : isLetter c) : c ≠ ' ' := by
  rintro rfl; revert h; decide

/-- The three searches of `show` on a text of the accepted shape. -/
theorem show_shape_searches (pre st sub : CStr) (a b : Char) (pc : CStr)
    (hpre : ' ' ∉ pre) (hst : ',' ∉ st) (hsub : ',' ∉ sub) (hlen : pc.length = 4) :
    5 ≤ (pre ++ ' ' :: (st ++ ',' :: (' ' :: sub ++ ',' :: ' ' :: a :: b :: ' ' :: pc))).length ∧
    (pre ++ ' ' :: (st ++ ',' :: (' ' :: sub ++ ',' :: ' ' :: a :: b :: ' ' :: pc))).take
      ((pre ++ ' ' :: (st ++ ',' :: (' ' :: sub ++ ',' :: ' ' :: a :: b :: ' ' :: pc))).length - 5) =
      pre ++ ' ' :: (st ++ ',' :: (' ' :: sub ++ ',' :: [' ', a, b])) ∧
    strchr (pre ++ ' ' :: (st ++ ',' :: (' ' :: sub ++ ',' :: [' ', a, b]))) ' ' =
      some pre.length ∧
    strchr (st ++ ',' :: (' ' :: sub ++ ',' :: [' ', a, b])) ',' = some st.length ∧
    strchr (' ' :: sub ++ ',' :: [' ', a, b]) ',' = some (sub.length + 1) := by
  have e : pre ++ ' ' :: (st ++ ',' :: (' ' :: sub ++ ',' :: ' ' :: a :: b :: ' ' :: pc)) =
      (pre ++ ' ' :: (st ++ ',' :: (' ' :: sub ++ ',' :: [' ', a, b]))) ++ ' ' :: pc := by simp
  have hl : (pre ++ ' ' :: (st ++ ',' :: (' ' :: sub ++ ',' :: ' ' :: a :: b :: ' ' :: pc))).length - 5 =
      (pre ++ ' ' :: (st ++ ',' :: (' ' :: sub ++ ',' :: [' ', a, b]))).length := by
    rw [e, List.length_append, List.length_cons, hlen]; omega
  have h5 : 5 ≤ (pre ++ ' ' :: (st ++ ',' :: (' ' :: sub ++ ',' :: ' ' :: a :: b :: ' ' :: pc))).length := by
    rw [e, List.length_append, List.length_cons, hlen]; omega
  have ht : (pre ++ ' ' :: (st ++ ',' :: (' ' :: sub ++ ',' :: ' ' :: a :: b :: ' ' :: pc))).take
      ((pre ++ ' ' :: (st ++ ',' :: (' ' :: sub ++ ',' :: ' ' :: a :: b :: ' ' :: pc))).length - 5) =
      pre ++ ' ' :: (st ++ ',' :: (' ' :: sub ++ ',' :: [' ', a, b])) := by
    rw [hl]
    conv_lhs => rw [e]
    rw [List.take_left]
  have hsub' : ',' ∉ ' ' :: sub := by
    simp only [List.mem_cons, not_or]
    exact ⟨by decide, hsub⟩
  have k1 := strchr_append_cons pre (st ++ ',' :: (' ' :: sub ++ ',' :: [' ', a, b])) ' ' hpre
  have k2 := strchr_append_cons st (' ' :: sub ++ ',' :: [' ', a, b]) ',' hst
  have k3 := strchr_append_cons (' ' :: sub) [' ', a, b] ',' hsub'
  exact ⟨h5, ht, k1, k2, k3⟩

/-- The result of `show` on a text of the accepted shape: undefined when the
suburb has fewer than three characters, where the operands of the final
`strcat` overlap. -/
theorem show_shape (l : Nat) (pre st sub : CStr) (a b : Char) (pc : CStr)
    (hpre : ' ' ∉ pre) (hst : ',' ∉ st) (hsub : ',' ∉ sub) (hlen : pc.length = 4) :
    showAddress ⟨l, pre ++ ' ' :: (st ++ ',' :: (' ' :: sub ++ ',' :: ' ' :: a :: b :: ' ' :: pc))⟩ =
      if sub.length < 3 then none else some (st ++ [',', ' ', a, b]) := by
  obtain ⟨h5, ht, k1, k2, k3⟩ := show_shape_searches pre st sub a b pc hpre hst hsub hlen
  have h5' : ¬ (pre ++ ' ' :: (st ++ ',' :: (' ' :: sub ++ ',' :: ' ' :: a :: b :: ' ' :: pc))).length
      < 5 := by omega
  have hd : List.drop (sub.length + 1) (' ' :: sub ++ ',' :: [' ', a, b]) = [',', ' ', a, b] :=
    List.drop_left' (by simp)
  unfold showAddress
  simp only [h5', if_false, ht, k1, drop_append_cons, k2, take_append_cons, k3, hd]
  by_cases hs : sub.length < 3
  · have : sub.length + 1 < [',', ' ', a, b].length := by
      simp only [List.length_cons, List.length_nil]; omega
    simp only [hs, this, if_true]
  · have : ¬ sub.length + 1 < [',', ' ', a, b].length := by
      simp only [List.length_cons, List.length_nil]; omega
    simp only [hs, this, if_false]

/-- On an accepted text the three searches of `show` find their character;
`show` gives the street name, a comma, a space and the state when the suburb
has at least three characters, and is undefined when it has fewer. -/
theorem show_of_splits {s : CStr} {F : Fields} (l : Nat) (h : Splits s F) :
    (showAddress ⟨l, s⟩ =
      if F.suburbName.length < 3 then none
      else some (F.streetName ++ ',' :: ' ' :: F.state)) ∧
    F.street = F.houseNumber ++ ' ' :: F.streetName ∧ Digits F.houseNumber ∧
    Words F.streetName ∧ 5 ≤ s.length ∧
    (∃ i j k, strchr (s.take (s.length - 5)) ' ' = some i ∧
      strchr ((s.take (s.length - 5)).drop (i + 1)) ',' = some j ∧
      strchr (((s.take (s.length - 5)).drop (i + 1)).drop (j + 1)) ',' = some k) := by
  obtain ⟨num, st, sub, a, b, pc, hnum, hst, hsub, _, _, hlen, _, e1, e2, e3⟩ := splits_shapes h
  have hs := h.1
  have hdw : ∀ (n : CStr), (∀ c ∈ n, isDigit c) →
      (n ++ ' ' :: st).dropWhile (fun c => decide (isDigit c)) = ' ' :: st ∧
      (n ++ ' ' :: st).takeWhile (fun c => decide (isDigit c)) = n := by
    intro n
    induction n with
    | nil =>
      intro _
      have : ¬ isDigit ' ' := by decide
      simp [List.dropWhile, List.takeWhile, this]
    | cons x xs ih =>
      intro hx
      have h1 := hx x (by simp)
      have h2 := ih (fun c hc => hx c (by simp [hc]))
      simp [List.dropWhile, List.takeWhile, h1, h2]
  have hname : F.streetName = st := by
    simp [Fields.streetName, e1, (hdw num hnum.2).1]
  have hhouse : F.houseNumber = num := by
    simp [Fields.houseNumber, e1, (hdw num hnum.2).2]
  have hstate : F.state = [a, b] := by simp [Fields.state, e3]
  have hpre : ' ' ∉ unitPrefix F.unit ++ num := by
    have hn : ' ' ∉ num := fun hm => digit_ne_space (hnum.2 _ hm) rfl
    cases hu : F.unit with
    | none => simpa [unitPrefix] using hn
    | some u =>
      have hlang : Regex.Lang unitPattern u := by
        have := h.2.1
        rw [hu] at this
        exact this.2
      obtain ⟨l', ds, hl', hds, rfl⟩ := (unit_lang_iff _).1 hlang
      simp only [unitPrefix, List.mem_append, List.mem_cons, List.mem_singleton,
        List.not_mem_nil, or_false, not_or]
      exact ⟨⟨⟨fun e => letter_ne_space hl' e.symm,
        fun hm => digit_ne_space (hds.2 _ hm) rfl⟩, by decide⟩, hn⟩
  have hstc : ',' ∉ st := not_mem_of_fieldChar (words_fieldChar hst) not_fieldChar_comma
  have hsubc : ',' ∉ sub := not_mem_of_fieldChar (words_fieldChar hsub) not_fieldChar_comma
  have hshape := show_shape l (unitPrefix F.unit ++ num) st sub a b pc hpre hstc hsubc hlen
  obtain ⟨h5, ht, k1, k2, k3⟩ :=
    show_shape_searches (unitPrefix F.unit ++ num) st sub a b pc hpre hstc hsubc hlen
  have es : s = (unitPrefix F.unit ++ num) ++
      ' ' :: (st ++ ',' :: (' ' :: sub ++ ',' :: ' ' :: a :: b :: ' ' :: pc)) := by
    rw [hs, e1, e2, e3]; simp
  have hsubn : F.suburbName = sub := by simp [Fields.suburbName, e2]
  refine ⟨?_, by rw [hname, hhouse, e1], by rw [hhouse]; exact hnum, by rw [hname]; exact hst,
    by rw [es]; exact h5, ?_⟩
  · rw [es, hshape, hname, hstate, hsubn]
  · rw [es, ht]
    refine ⟨(unitPrefix F.unit ++ num).length, st.length, sub.length + 1, k1, ?_, ?_⟩
    · rw [drop_append_cons]; exact k2
    · rw [drop_append_cons, drop_append_cons]; exact k3

/-- C15, as the claim states it, fails: for the accepted address
`12 Smith Street, Springfield, VI 3000` the view `show` returns
`Smith Street, VI`, which does not contain the suburb `Springfield`. -/
theorem show_omits_suburb :
    postadd_in "12 Smith Street, Springfield, VI 3000".toList =
      .ok ⟨42, "12 Smith Street, Springfield, VI 3000".toList⟩ ∧
    showAddress ⟨42, "12 Smith Street, Springfield, VI 3000".toList⟩ =
      some "Smith Street, VI".toList ∧
    ¬ ("Springfield".toList <:+: "Smith Street, VI".toList) :=
  ⟨by rfl, by decide, by decide⟩

/-- C15, amended: for an accepted address with parsed fields `F` whose
suburb has at least three characters, `show` returns a text that drops the
unit, the house number, the suburb and the postcode: the stored text is unit
prefix, house number, space, `name`, comma, suburb, `tail`, space, postcode,
and the result is `name ++ tail`, where `name` is the street name and `tail`
is comma, space and the state.  (With a shorter suburb the operands of the
final `strcat` overlap; nothing is stated about that case.) -/
theorem show_drops_number_suburb_postcode (s : CStr) (a : postaddress) (F : Fields)
    (ha : postadd_in s = .ok a) (hF : postadd_in_fields s = .ok F)
    (hsub : 3 ≤ F.suburbName.length) :
    ∃ name tail : CStr, showAddress a = some (name ++ tail) ∧
      a.data = unitPrefix F.unit ++ F.houseNumber ++ ' ' :: name ++ ',' :: F.suburb ++ tail ++
        ' ' :: F.postcode ∧
      name = F.streetName ∧ tail = ',' :: ' ' :: F.state := by
  obtain ⟨_, rfl⟩ := (postadd_in_ok_iff s a).1 ha
  have sF := (fields_ok_iff s F).1 hF
  obtain ⟨hshow, hstreet, _, _, _, _⟩ := show_of_splits (s.length + 1 + VARHDRSZ) sF
  obtain ⟨_, _, _, _, _, _, _, _, _, _, _, _, _, e3⟩ := splits_shapes sF
  have hnot : ¬ F.suburbName.length < 3 := by omega
  rw [if_neg hnot] at hshow
  refine ⟨F.streetName, ',' :: ' ' :: F.state, hshow, ?_, rfl, rfl⟩
  have hs := sF.1
  have hsp : F.state_postcode = ' ' :: F.state ++ ' ' :: F.postcode := by
    simp [Fields.state, Fields.postcode, e3]
  show s = _
  conv_lhs => rw [hs, hstreet, hsp]
  simp

/-- Instance of amended C15 at an address with a unit. -/
theorem show_drops_number_suburb_postcode_witness :
    ∃ name tail : CStr,
      showAddress ⟨46, "A12/12 Smith Street, Springfield, VI 3000".toList⟩ =
        some (name ++ tail) ∧
      "A12/12 Smith Street, Springfield, VI 3000".toList =
        unitPrefix (some "A12".toList) ++ "12".toList ++ ' ' :: name ++
          ',' :: " Springfield".toList ++ tail ++ ' ' :: "3000".toList ∧
      name = "Smith Street".toList ∧ tail = ", VI".toList :=
  show_drops_number_suburb_postcode "A12/12 Smith Street, Springfield, VI 3000".toList
    ⟨46, "A12/12 Smith Street, Springfield, VI 3000".toList⟩
    ⟨some "A12".toList, "12 Smith Street".toList, " Springfield".toList, " VI 3000".toList⟩
    (by rfl) (by rfl) (by decide)

/-- C20: the code breaks the claim on accepted addresses with a suburb of
one or two letters.  For an accepted address whose suburb has at least three
characters `show` returns the street name, a comma, a space and the state, as
the claim says, and so it does on the two texts of the claim
(`Smith Street, VIC`).  For the accepted address
`b7/12 Smith Street, X, VI 3000` the searches of `show` find the first space
at offset 5, the first comma 12 characters after it and the second comma 2
characters further, and the final `strcat` then copies the four characters
`, VI` and a terminator onto a range that starts 3 characters before them:
its operands overlap and the result is undefined. -/
theorem show_undefined_for_short_suburb :
    (∀ (s : CStr) (a : postaddress) (F : Fields),
      postadd_in s = .ok a → postadd_in_fields s = .ok F → 3 ≤ F.suburbName.length →
      showAddress a = some (F.streetName ++ ',' :: ' ' :: F.state) ∧
      F.street = F.houseNumber ++ ' ' :: F.streetName ∧ Digits F.houseNumber) ∧
    showAddress ⟨43, "12 Smith Street, Springfield, VIC 3000".toList⟩ =
      some "Smith Street, VIC".toList ∧
    showAddress ⟨47, "A12/12 Smith Street, Springfield, VIC 3000".toList⟩ =
      some "Smith Street, VIC".toList ∧
    postadd_in "b7/12 Smith Street, X, VI 3000".toList =
      .ok ⟨35, "b7/12 Smith Street, X, VI 3000".toList⟩ ∧
    strchr "b7/12 Smith Street, X, VI".toList ' ' = some 5 ∧
    strchr "Smith Street, X, VI".toList ',' = some 12 ∧
    strchr " X, VI".toList ',' = some 2 ∧
    " X, VI".toList.drop 2 = ", VI".toList ∧
    showAddress ⟨35, "b7/12 Smith Street, X, VI 3000".toList⟩ = none := by
  refine ⟨?_, by decide, by decide, by rfl, by decide, by decide, by decide, by decide,
    by decide⟩
  intro s a F ha hF hsub
  obtain ⟨_, rfl⟩ := (postadd_in_ok_iff s a).1 ha
  have sF := (fields_ok_iff s F).1 hF
  obtain ⟨hshow, hstreet, hnum, _, _, _⟩ := show_of_splits (s.length + 1 + VARHDRSZ) sF
  have hnot : ¬ F.suburbName.length < 3 := by omega
  rw [if_neg hnot] at hshow
  exact ⟨hshow, hstreet, hnum⟩

/-! ## The splits of the comparison and of the parser -/

/-- C16: for an accepted text with parsed fields `F`, the unit, street,
suburb and state that `postaddress_abs_cmp_internal` extracts from it are the
unit of the parser (absent when the parser saw none), the street of the
parser, the suburb of the parser without its leading space, and the two
uppercase letters of the state/postcode segment of the parser. -/
theorem cmp_fields_agree_with_postadd_in (s : CStr) (a : postaddress) (F : Fields)
    (ha : postadd_in s = .ok a) (hF : postadd_in_fields s = .ok F) :
    cmpFields a.data = some (F.unit, F.street, F.suburbName, F.state) ∧
    F.suburb = ' ' :: F.suburbName ∧
    (∃ x y, isUpper x ∧ isUpper y ∧ F.state = [x, y]) ∧
    F.state_postcode = ' ' :: F.state ++ ' ' :: F.postcode ∧
    (∀ b : postaddress, postaddress_abs_cmp_internal a b =
      match cmpFields a.data, cmpFields b.data with
      | some (uA, stA, suA, sA), some (uB, stB, suB, sB) =>
        some (cmpCascade uA uB stA stB suA suB sA sB)
      | _, _ => none) := by
  obtain ⟨_, rfl⟩ := (postadd_in_ok_iff s a).1 ha
  have sF := (fields_ok_iff s F).1 hF
  obtain ⟨_, _, sub, x, y, pc, _, _, _, hx, hy, _, _, _, e2, e3⟩ := splits_shapes sF
  refine ⟨cmpFields_of_splits sF, by simp [Fields.suburbName, e2],
    ⟨x, y, hx, hy, by simp [Fields.state, e3]⟩,
    by simp [Fields.state, Fields.postcode, e3], fun b => cmp_internal_eq _ b⟩

/-- Instance of C16 at an address with a unit. -/
theorem cmp_fields_agree_with_postadd_in_witness :
    cmpFields "A12/12 Smith Street, New Town, VI 3000".toList =
      some (some "A12".toList, "12 Smith Street".toList, "New Town".toList, "VI".toList) :=
  (cmp_fields_agree_with_postadd_in "A12/12 Smith Street, New Town, VI 3000".toList
    ⟨43, "A12/12 Smith Street, New Town, VI 3000".toList⟩
    ⟨some "A12".toList, "12 Smith Street".toList, " New Town".toList, " VI 3000".toList⟩
    (by rfl) (by rfl)).1

theorem transTriple_ite {c cb cc r rb rc : Int} (k : Int) (hk : 0 < k)
    (h : TransTriple c cb cc) (hr : TransTriple r rb rc) :
    TransTriple (if c > 0 then k else if c < 0 then -k else r)
      (if cb > 0 then k else if cb < 0 then -k else rb)
      (if cc > 0 then k else if cc < 0 then -k else rc) := by
  unfold TransTriple at *
  obtain ⟨h1, h2, h3⟩ := h
  obtain ⟨r1, r2, r3⟩ := hr
  split_ifs <;> refine ⟨?_, ?_, ?_⟩ <;> intro p q <;> omega

theorem transTriple_zero : TransTriple 0 0 0 := by
  unfold TransTriple; omega

theorem tolower_pos {c : Char} (h : c.toNat ≠ 0) : (0 : Int) < ((tolower c).toNat : Int) := by
  have := tolower_ne_nul c h
  omega

theorem tolower_toNat_eq_iff (a b : Char) :
    ((tolower a).toNat : Int) = ((tolower b).toNat : Int) ↔ tolower a = tolower b := by
  constructor
  · intro h; exact char_eq_of_toNat_eq (by omega)
  · intro h; rw [h]

theorem strcasecmp_transTriple (x y z : CStr) (hx : ∀ c ∈ x, c.toNat ≠ 0)
    (hy : ∀ c ∈ y, c.toNat ≠ 0) (hz : ∀ c ∈ z, c.toNat ≠ 0) :
    TransTriple (strcasecmp x y) (strcasecmp y z) (strcasecmp x z) := by
  induction x generalizing y z with
  | nil =>
    cases y with
    | nil =>
      simp only [strcasecmp]
      unfold TransTriple; omega
    | cons b ys =>
      have pb := tolower_pos (hy b (by simp))
      cases z with
      | nil =>
        simp only [strcasecmp]
        unfold TransTriple; omega
      | cons c zs =>
        have pc := tolower_pos (hz c (by simp))
        simp only [strcasecmp]
        generalize (if tolower b = tolower c then strcasecmp ys zs
          else ((tolower b).toNat : Int) - ((tolower c).toNat : Int)) = s
        unfold TransTriple; omega
  | cons a xs ih =>
    have pa := tolower_pos (hx a (by simp))
    cases y with
    | nil =>
      cases z with
      | nil => simp only [strcasecmp]; unfold TransTriple; omega
      | cons c zs =>
        simp only [strcasecmp]
        generalize (if tolower a = tolower c then strcasecmp xs zs
          else ((tolower a).toNat : Int) - ((tolower c).toNat : Int)) = s
        unfold TransTriple; omega
    | cons b ys =>
      have pb := tolower_pos (hy b (by simp))
      cases z with
      | nil =>
        simp only [strcasecmp]
        generalize (if tolower a = tolower b then strcasecmp xs ys
          else ((tolower a).toNat : Int) - ((tolower b).toNat : Int)) = s
        unfold TransTriple; omega
      | cons c zs =>
        have IH := ih ys zs (fun c hc => hx c (by simp [hc])) (fun c hc => hy c (by simp [hc]))
          (fun c hc => hz c (by simp [hc]))
        have eab := tolower_toNat_eq_iff a b
        have ebc := tolower_toNat_eq_iff b c
        have eac := tolower_toNat_eq_iff a c
        by_cases hab : tolower a = tolower b
        · by_cases hbc : tolower b = tolower c
          · have hac : tolower a = tolower c := hab.trans hbc
            simp only [strcasecmp, hab, hbc, if_true]
            exact IH
          · have hac : ¬ tolower a = tolower c := fun e => hbc (hab.symm.trans e)
            have nbc := (not_congr ebc).2 hbc
            have nab := eab.2 hab
            simp only [strcasecmp, hab, hbc, if_true, if_false]
            rw [hab] at nab
            generalize strcasecmp xs ys = f
            unfold TransTriple; omega
        · by_cases hbc : tolower b = tolower c
          · have hac : ¬ tolower a = tolower c := fun e => hab (e.trans hbc.symm)
            have nab := (not_congr eab).2 hab
            simp only [strcasecmp, hab, hbc, hac, if_true, if_false]
            rw [← hbc]
            generalize strcasecmp ys zs = f
            unfold TransTriple; omega
          · have nab := (not_congr eab).2 hab
            have nbc := (not_congr ebc).2 hbc
            by_cases hac : tolower a = tolower c
            · have nac := eac.2 hac
              simp only [strcasecmp]
              rw [if_neg hab, if_neg hbc, if_pos hac]
              generalize strcasecmp xs zs = f
              unfold TransTriple; omega
            · have nac := (not_congr eac).2 hac
              simp only [strcasecmp, hab, hbc, hac, if_false]
              unfold TransTriple; omega

theorem unit_transTriple (uA uB uC : Option CStr) :
    (∀ u, uA = some u → ∀ c ∈ u, c.toNat ≠ 0) →
    (∀ u, uB = some u → ∀ c ∈ u, c.toNat ≠ 0) →
    (∀ u, uC = some u → ∀ c ∈ u, c.toNat ≠ 0) →
    TransTriple
      (match uA, uB with
        | some _, none => 1
        | none, some _ => -1
        | none, none => 0
        | some uA, some uB =>
          if strcasecmp uA uB > 0 then 1 else if strcasecmp uA uB < 0 then -1 else 0)
      (match uB, uC with
        | some _, none => 1
        | none, some _ => -1
        | none, none => 0
        | some uA, some uB =>
          if strcasecmp uA uB > 0 then 1 else if strcasecmp uA uB < 0 then -1 else 0)
      (match uA, uC with
        | some _, none => 1
        | none, some _ => -1
        | none, none => 0
        | some uA, some uB =>
          if strcasecmp uA uB > 0 then 1 else if strcasecmp uA uB < 0 then -1 else 0) := by
  intro hA hB hC
  cases uA with
  | none =>
    cases uB with
    | none => cases uC <;> simp only [] <;> unfold TransTriple <;> omega
    | some v =>
      cases uC with
      | none => simp only []; unfold TransTriple; omega
      | some w =>
        simp only []
        generalize (if strcasecmp v w > 0 then (1 : Int) else if strcasecmp v w < 0 then -1 else 0) = s
        unfold TransTriple; omega
  | some u =>
    cases uB with
    | none =>
      cases uC with
      | none => simp only []; unfold TransTriple; omega
      | some w =>
        simp only []
        generalize (if strcasecmp u w > 0 then (1 : Int) else if strcasecmp u w < 0 then -1 else 0) = s
        unfold TransTriple; omega
    | some v =>
      cases uC with
      | none =>
        simp only []
        generalize (if strcasecmp u v > 0 then (1 : Int) else if strcasecmp u v < 0 then -1 else 0) = s
        unfold TransTriple; omega
      | some w =>
        simp only []
        exact transTriple_ite 1 (by decide)
          (strcasecmp_transTriple u v w (hA u rfl) (hB v rfl) (hC w rfl)) transTriple_zero

theorem cmpCascade_transTriple {sa sb sc : CStr} {A B C : Fields}
    (ha : Splits sa A) (hb : Splits sb B) (hc : Splits sc C) :
    TransTriple (cmpReference A B) (cmpReference B C) (cmpReference A C) := by
  rw [← cmpCascade_eq_reference ha hb, ← cmpCascade_eq_reference hb hc,
    ← cmpCascade_eq_reference ha hc]
  obtain ⟨a1, a2, a3, a4⟩ := splits_no_nul ha
  obtain ⟨b1, b2, b3, b4⟩ := splits_no_nul hb
  obtain ⟨c1, c2, c3, c4⟩ := splits_no_nul hc
  unfold cmpCascade
  exact transTriple_ite 2 (by decide) (strcasecmp_transTriple _ _ _ a1 b1 c1)
    (transTriple_ite 2 (by decide) (strcasecmp_transTriple _ _ _ a2 b2 c2)
      (transTriple_ite 1 (by decide) (strcasecmp_transTriple _ _ _ a3 b3 c3)
        (unit_transTriple A.unit B.unit C.unit a4 b4 c4)))

theorem le_of_splits {sa sb : CStr} {A B : Fields} (la lb : Nat)
    (ha : Splits sa A) (hb : Splits sb B) :
    postaddress_abs_le ⟨la, sa⟩ ⟨lb, sb⟩ = some (decide (cmpReference A B ≤ 0)) := by
  simp [postaddress_abs_le, cmp_internal_of_splits la lb ha hb]

theorem lt_of_splits {sa sb : CStr} {A B : Fields} (la lb : Nat)
    (ha : Splits sa A) (hb : Splits sb B) :
    postaddress_abs_lt ⟨la, sa⟩ ⟨lb, sb⟩ = some (decide (cmpReference A B < 0)) := by
  simp [postaddress_abs_lt, cmp_internal_of_splits la lb ha hb]

theorem cmpReference_swap {sa sb : CStr} {A B : Fields} (ha : Splits sa A) (hb : Splits sb B) :
    cmpReference B A = - cmpReference A B := by
  rw [← cmpCascade_eq_reference ha hb, ← cmpCascade_eq_reference hb ha, cmpCascade_antisymm]

/-- C18: the order is transitive on accepted addresses. For accepted `a`,
`b`, `c`: `le a b` and `le b c` give `le a c`, likewise for `lt` and for `eq`;
and `le` is reflexive and total, so the comparison is a total preorder. -/
theorem order_transitive (sa sb sc : CStr) (a b c : postaddress)
    (ha : postadd_in sa = .ok a) (hb : postadd_in sb = .ok b) (hc : postadd_in sc = .ok c) :
    (postaddress_abs_le a b = some true → postaddress_abs_le b c = some true →
      postaddress_abs_le a c = some true) ∧
    (postaddress_abs_lt a b = some true → postaddress_abs_lt b c = some true →
      postaddress_abs_lt a c = some true) ∧
    (postaddress_abs_eq a b = some true → postaddress_abs_eq b c = some true →
      postaddress_abs_eq a c = some true) ∧
    postaddress_abs_le a a = some true ∧
    (postaddress_abs_le a b = some true ∨ postaddress_abs_le b a = some true) := by
  obtain ⟨rfl, A, _, sA⟩ := accepted_splits ha
  obtain ⟨rfl, B, _, sB⟩ := accepted_splits hb
  obtain ⟨rfl, C, _, sC⟩ := accepted_splits hc
  rw [le_of_splits _ _ sA sB, le_of_splits _ _ sB sC, le_of_splits _ _ sA sC,
    lt_of_splits _ _ sA sB, lt_of_splits _ _ sB sC, lt_of_splits _ _ sA sC,
    eq_of_splits _ _ sA sB, eq_of_splits _ _ sB sC, eq_of_splits _ _ sA sC,
    le_of_splits _ _ sA sA, le_of_splits _ _ sB sA]
  simp only [Option.some.injEq, decide_eq_true_eq]
  have T := cmpCascade_transTriple sA sB sC
  have hsw := cmpReference_swap sA sB
  have hrefl := cmpReference_swap sA sA
  unfold TransTriple at T
  obtain ⟨t1, t2, t3⟩ := T
  refine ⟨?_, ?_, t3, by omega, by omega⟩
  · intro p q
    rcases lt_or_eq_of_le p with p' | p'
    · have := t1 p' q; omega
    · rcases lt_or_eq_of_le q with q' | q'
      · have := t2 p q'; omega
      · have := t3 p' q'; omega
  · intro p q
    exact t1 p (by omega)

/-- Instances of C18: three addresses in increasing order, differing in
state, then in street; and three equal addresses, differing in case and in
postcode. -/
theorem order_transitive_witness :
    postaddress_abs_le ⟨23, "1 A St, X, NS 3000".toList⟩ ⟨23, "2 B St, X, VI 3000".toList⟩ =
      some true ∧
    postaddress_abs_lt ⟨23, "1 A St, X, NS 3000".toList⟩ ⟨23, "2 B St, X, VI 3000".toList⟩ =
      some true ∧
    postaddress_abs_eq ⟨23, "1 A St, X, VI 3000".toList⟩ ⟨23, "1 A ST, X, VI 3002".toList⟩ =
      some true ∧
    postaddress_abs_le ⟨23, "1 A St, X, NS 3000".toList⟩ ⟨23, "1 A St, X, NS 3000".toList⟩ =
      some true :=
  have h := order_transitive "1 A St, X, NS 3000".toList "1 A St, X, VI 3000".toList
    "2 B St, X, VI 3000".toList ⟨23, "1 A St, X, NS 3000".toList⟩
    ⟨23, "1 A St, X, VI 3000".toList⟩ ⟨23, "2 B St, X, VI 3000".toList⟩
    (by rfl) (by rfl) (by rfl)
  have g := order_transitive "1 A St, X, VI 3000".toList "1 a st, x, VI 3001".toList
    "1 A ST, X, VI 3002".toList ⟨23, "1 A St, X, VI 3000".toList⟩
    ⟨23, "1 a st, x, VI 3001".toList⟩ ⟨23, "1 A ST, X, VI 3002".toList⟩
    (by rfl) (by rfl) (by rfl)
  ⟨h.1 (by decide) (by decide), h.2.1 (by decide) (by decide),
    g.2.2.1 (by decide) (by decide), h.2.2.2.1⟩

/-! ## The comparison and the postcode -/

theorem digit_ne_slash {c : Char} (h : isDigit c) : c ≠ '/' := by
  rintro rfl; revert h; decide

/-- Replacing the postcode of an accepted text by four digits gives an
accepted text with the same unit, street and suburb and the same state. -/
theorem splits_setPostcode {s : CStr} {F : Fields} (h : Splits s F) (pc : CStr)
    (hlen : pc.length = 4) (hpc : ∀ c ∈ pc, isDigit c) :
    Splits (setPostcode s pc) ⟨F.unit, F.street, F.suburb, ' ' :: F.state ++ ' ' :: pc⟩ ∧
    Fields.state ⟨F.unit, F.street, F.suburb, ' ' :: F.state ++ ' ' :: pc⟩ = F.state := by
  obtain ⟨_, _, sub, x, y, pc0, _, _, _, hx, hy, _, _, _, e2, e3⟩ := splits_shapes h
  have hstate : F.state = [x, y] := by simp [Fields.state, e3]
  have htext := text_without_postcode h
  obtain ⟨hs, hu, c1, c2, h1, h2, _⟩ := h
  have hsub : F.suburb = ' ' :: F.suburbName := by simp [Fields.suburbName, e2]
  have hnew : setPostcode s pc =
      unitPrefix F.unit ++ (F.street ++ ',' :: (F.suburb ++ ',' :: (' ' :: F.state ++ ' ' :: pc))) := by
    rw [setPostcode, htext]
    conv_rhs => rw [hsub]
    simp
  have h3 : Regex.Lang statePostcodePattern (' ' :: F.state ++ ' ' :: pc) := by
    rw [hstate]
    exact (state_postcode_lang_iff _).2 ⟨x, y, pc, hx, hy, hlen, hpc, rfl⟩
  refine ⟨⟨hnew, ?_, c1, c2, h1, h2, h3⟩, by rw [hstate]; rfl⟩
  cases hF : F.unit with
  | some u =>
    rw [hF] at hu
    exact hu
  | none =>
    simp only []
    rw [hnew, hF]
    have := slash_not_mem_rest (F := ⟨F.unit, F.street, F.suburb, ' ' :: F.state ++ ' ' :: pc⟩)
      h1 h2 h3
    simpa [unitPrefix] using this

theorem cmpFields_setPostcode {s : CStr} {F : Fields} (h : Splits s F) (pc : CStr)
    (hlen : pc.length = 4) (hpc : ∀ c ∈ pc, isDigit c) :
    cmpFields (setPostcode s pc) = cmpFields s := by
  obtain ⟨h', hst⟩ := splits_setPostcode h pc hlen hpc
  rw [cmpFields_of_splits h', cmpFields_of_splits h, hst]
  rfl

theorem cmp_internal_congr (a b a' b' : postaddress) (ha : cmpFields a'.data = cmpFields a.data)
    (hb : cmpFields b'.data = cmpFields b.data) :
    postaddress_abs_cmp_internal a' b' = postaddress_abs_cmp_internal a b := by
  rw [cmp_internal_eq, cmp_internal_eq, ha, hb]

/-- C19: the comparison never looks at the postcode. For accepted addresses
`a`, `b`: replacing the postcode of either text by any four digits gives
accepted addresses with the same comparison result; and when the two texts
differ only in their last four characters, `postaddress_abs_cmp a b` is 0 and
`postaddress_abs_eq a b` is true. -/
theorem cmp_ignores_postcode (sa sb : CStr) (a b : postaddress) (pa pb : CStr)
    (ha : postadd_in sa = .ok a) (hb : postadd_in sb = .ok b)
    (hpa : pa.length = 4 ∧ ∀ c ∈ pa, isDigit c) (hpb : pb.length = 4 ∧ ∀ c ∈ pb, isDigit c) :
    (∃ a' b', postadd_in (setPostcode sa pa) = .ok a' ∧ postadd_in (setPostcode sb pb) = .ok b' ∧
      postaddress_abs_cmp a' b' = postaddress_abs_cmp a b) ∧
    (sa.take (sa.length - 4) = sb.take (sb.length - 4) →
      postaddress_abs_cmp a b = some 0 ∧ postaddress_abs_eq a b = some true) := by
  obtain ⟨rfl, A, _, sA⟩ := accepted_splits ha
  obtain ⟨rfl, B, _, sB⟩ := accepted_splits hb
  have sA' := (splits_setPostcode sA pa hpa.1 hpa.2).1
  have sB' := (splits_setPostcode sB pb hpb.1 hpb.2).1
  constructor
  · refine ⟨⟨(setPostcode sa pa).length + 1 + VARHDRSZ, setPostcode sa pa⟩,
      ⟨(setPostcode sb pb).length + 1 + VARHDRSZ, setPostcode sb pb⟩,
      (postadd_in_ok_iff _ _).2 ⟨⟨_, (fields_ok_iff _ _).2 sA'⟩, rfl⟩,
      (postadd_in_ok_iff _ _).2 ⟨⟨_, (fields_ok_iff _ _).2 sB'⟩, rfl⟩, ?_⟩
    exact cmp_internal_congr _ _ _ _ (cmpFields_setPostcode sA pa hpa.1 hpa.2)
      (cmpFields_setPostcode sB pb hpb.1 hpb.2)
  · intro ht
    obtain ⟨_, _, hlB, hdB, eB⟩ := text_postcode sB
    have hsb : sb = setPostcode sa B.postcode := by
      rw [setPostcode, ht]; exact eB
    have hf : cmpFields sb = cmpFields sa := by
      conv_lhs => rw [hsb]
      exact cmpFields_setPostcode sA B.postcode hlB hdB
    have hcongr := cmp_internal_congr ⟨sa.length + 1 + VARHDRSZ, sa⟩
      ⟨sa.length + 1 + VARHDRSZ, sa⟩ ⟨sa.length + 1 + VARHDRSZ, sa⟩
      ⟨sb.length + 1 + VARHDRSZ, sb⟩ rfl hf
    have hself := cmp_internal_of_splits (sa.length + 1 + VARHDRSZ) (sa.length + 1 + VARHDRSZ)
      sA sA
    have hz : cmpReference A A = 0 := by
      have := cmpReference_swap sA sA
      omega
    rw [postaddress_abs_cmp, postaddress_abs_eq, hcongr, hself, hz]
    exact ⟨rfl, rfl⟩

/-- Instance of C19: the postcodes 3000 and 2999 are replaced by 0001 and
9876, and two texts that differ only in the postcode compare equal. -/
theorem cmp_ignores_postcode_witness :
    (∃ a' b', postadd_in (setPostcode "B1/1 A St, X, VI 3000".toList "0001".toList) = .ok a' ∧
      postadd_in (setPostcode "B1/1 A St, X, VI 2999".toList "9876".toList) = .ok b' ∧
      postaddress_abs_cmp a' b' =
        postaddress_abs_cmp ⟨26, "B1/1 A St, X, VI 3000".toList⟩
          ⟨26, "B1/1 A St, X, VI 2999".toList⟩) ∧
    postaddress_abs_cmp ⟨26, "B1/1 A St, X, VI 3000".toList⟩
      ⟨26, "B1/1 A St, X, VI 2999".toList⟩ = some 0 ∧
    postaddress_abs_eq ⟨26, "B1/1 A St, X, VI 3000".toList⟩
      ⟨26, "B1/1 A St, X, VI 2999".toList⟩ = some true :=
  have h := cmp_ignores_postcode "B1/1 A St, X, VI 3000".toList "B1/1 A St, X, VI 2999".toList
    ⟨26, "B1/1 A St, X, VI 3000".toList⟩ ⟨26, "B1/1 A St, X, VI 2999".toList⟩
    "0001".toList "9876".toList (by rfl) (by rfl)
    ⟨by rfl, by decide⟩ ⟨by rfl, by decide⟩
  ⟨h.1, h.2 (by decide)⟩

end PostAddress
